import Mathlib

/-!
Verification of the RoutineGamification progression core.

The development shallowly embeds the progression engine of the repository:
the Skill leveling math, the User aggregation of streaks and stats, the
RoutineSession completion state machine, the Routine definition queries, the
AchievementManager rule evaluation, and the RoutineManager orchestration.

Modelling conventions:
- JS numbers that are always non-negative integers in the code are `Nat`;
  values that can go below zero (the session XP ledger during subtraction)
  are `Int`; the fractional multipliers are `ℚ`.
- Timestamps are abstract day indices (`Nat`): the code compares timestamps
  only at calendar-day granularity (`toDateString`) for streak logic, and
  otherwise just stores them.  Functions that stamp a clock value in the
  code take an explicit `now` argument here.
- JS objects used as dictionaries (`skills`, `xpEarned`, reward maps) are
  insertion-ordered association lists, as in the JS runtime; `objSet`
  mirrors `o[k] = v` (in-place update when the key exists, append
  otherwise), `objDelete` mirrors `delete o[k]`, and `objGet` mirrors
  `o[k] || 0`.
-/

namespace RoutineGamification

/-! ## Association-list primitives for JS object dictionaries

JS objects used as dictionaries are insertion-ordered maps from string keys
to values; in every state the source can reach their keys are distinct.
They are embedded as association lists with generic access primitives. -/

/-- Lookup `m[k]`: the value of the first entry with key `k`, if any. -/
def entryGet {α : Type} (m : List (String × α)) (k : String) : Option α :=
  (m.find? (fun p => p.1 == k)).map Prod.snd

/-- Assignment `m[k] = v`: in-place replacement when the key is present,
append otherwise (JS objects preserve insertion order). -/
def entrySet {α : Type} (m : List (String × α)) (k : String) (v : α) :
    List (String × α) :=
  if m.any (fun p => p.1 == k) then
    m.map (fun p => if p.1 == k then (k, v) else p)
  else
    m ++ [(k, v)]

/-- Deletion `delete m[k]`. -/
def entryDelete {α : Type} (m : List (String × α)) (k : String) :
    List (String × α) :=
  m.filter (fun p => !(p.1 == k))

/-- Numeric lookup `m[k] || 0` on the session XP ledger. -/
def objGet (m : List (String × Int)) (k : String) : Int :=
  (entryGet m k).getD 0

/-- Assignment on the session XP ledger. -/
def objSet (m : List (String × Int)) (k : String) (v : Int) :
    List (String × Int) :=
  entrySet m k v

/-- Deletion on the session XP ledger. -/
def objDelete (m : List (String × Int)) (k : String) : List (String × Int) :=
  entryDelete m k

/-! ## Skill -/

/-- The Skill record, as initialised by the source constructor
(name, icon, type; level 1, currentXP 0, totalXP 0, prestige 0). -/
structure Skill where
  name : String
  icon : String
  type : String
  level : Nat
  currentXP : Nat
  totalXP : Nat
  prestige : Nat
  deriving Repr, DecidableEq

/-- The source constructor `new Skill(name, icon, type)`. -/
def Skill.init (name icon type : String) : Skill :=
  { name := name, icon := icon, type := type,
    level := 1, currentXP := 0, totalXP := 0, prestige := 0 }

/-- XP required for the next level at a given level:
`Math.floor(100 * Math.pow(level, 1.5))` for `level < 100`, `0` at max level.
Since `100 * l ^ 1.5 = Real.sqrt (10000 * l ^ 3)`, its floor is
`Nat.sqrt (10000 * l ^ 3)`; this agrees with the float computation of the
source at every level in `[1, 99]`. -/
def xpRequiredAt (level : Nat) : Nat :=
  if 100 ≤ level then 0
  else Nat.sqrt (10000 * level ^ 3)

/-- `Skill.getXPForNextLevel` from the source. -/
def Skill.getXPForNextLevel (s : Skill) : Nat :=
  xpRequiredAt s.level

/-- `Skill.getPrestigeMultiplier`: `1 + prestige * 0.05`. -/
def Skill.getPrestigeMultiplier (s : Skill) : ℚ :=
  1 + (s.prestige : ℚ) * (5 / 100)

/-- The level-up loop of `Skill.addXP`, with an explicit iteration budget:
each pass of the source loop increments the level and the loop exits as soon
as the level reaches 100, so a budget of `100 - level` can never be
exhausted before the loop condition fails on its own.  (Structural recursion
on the budget keeps the function kernel-reducible.) -/
def levelLoopFuel : Nat → Nat → Nat → Nat × Nat
  | 0, level, cur => (level, cur)
  | fuel + 1, level, cur =>
    if xpRequiredAt level ≤ cur ∧ level < 100 then
      levelLoopFuel fuel (level + 1) (cur - xpRequiredAt level)
    else
      (level, cur)

/-- The level-up loop of `Skill.addXP`:
`while (currentXP >= getXPForNextLevel() && level < 100) { currentXP -= getXPForNextLevel(); level++ }`. -/
def levelLoop (level cur : Nat) : Nat × Nat :=
  levelLoopFuel (100 - level) level cur

/-- The result record returned by `Skill.addXP`. -/
structure AddXPResult where
  leveledUp : Bool
  newLevel : Nat
  xpGained : Nat
  deriving Repr, DecidableEq

/-- `Skill.addXP(xp, streakBonus)`: the effective multiplier is
`getPrestigeMultiplier() * (1 + streakBonus)`, the adjusted XP is its floored
product with the raw XP, added to both `currentXP` and `totalXP`, after which
the level-up loop runs.  The code is only ever invoked with multipliers that
are at least zero, so the floored product is taken in `Nat`. -/
def Skill.addXP (s : Skill) (xp : Nat) (streakBonus : ℚ) : Skill × AddXPResult :=
  let totalMultiplier := s.getPrestigeMultiplier * (1 + streakBonus)
  let adjustedXP : Nat := (⌊(xp : ℚ) * totalMultiplier⌋).toNat
  let afterAdd := s.currentXP + adjustedXP
  let lc := levelLoop s.level afterAdd
  ({ s with currentXP := lc.2, totalXP := s.totalXP + adjustedXP, level := lc.1 },
   { leveledUp := decide (s.level < lc.1), newLevel := lc.1, xpGained := adjustedXP })

/-- The result record returned by the prestige method. -/
structure PrestigeResult where
  prestigeLevel : Nat
  multiplier : ℚ
  deriving Repr, DecidableEq

/-- The body of the prestige method of `Skill` (lines 90-103 of the source):
throw unless the level is at least 100, otherwise reset `level` to 1 and
`currentXP` to 0, increment the `prestige` counter, and return the new
prestige count and multiplier.  Note that at runtime the instance field
`this.prestige = 0` assigned in the constructor shadows this prototype
method, so a plain `skill.prestige()` call cannot actually reach this body;
the definition models the method itself. -/
def Skill.prestigeOp (s : Skill) : Except String (Skill × PrestigeResult) :=
  if s.level < 100 then
    .error "Must be level 100 to prestige"
  else
    let s2 := { s with level := 1, currentXP := 0, prestige := s.prestige + 1 }
    .ok (s2, { prestigeLevel := s2.prestige, multiplier := s2.getPrestigeMultiplier })

/-! ## User -/

/-- The streak record: `{ current, longest, lastCompleted }`.  The last
completion is stored as a day index (the code stores a timestamp but only
ever compares it at day granularity). -/
structure Streak where
  current : Nat
  longest : Nat
  lastCompleted : Option Nat
  deriving Repr, DecidableEq

/-- The lifetime stats record. -/
structure Stats where
  totalRoutinesCompleted : Nat
  totalTasksCompleted : Nat
  totalXPEarned : Nat
  achievements : List String
  deriving Repr, DecidableEq

/-- The User record.  `skills` is the JS object mapping category to Skill,
as an insertion-ordered association list; `createdAt` and `lastActive` are
optional because `User.fromJSON` copies them verbatim from the snapshot,
where they can be absent. -/
structure User where
  username : String
  createdAt : Option Nat
  lastActive : Option Nat
  skills : List (String × Skill)
  streak : Streak
  stats : Stats
  deriving Repr, DecidableEq

/-- The default streak value installed by the User constructor (and used as
the fallback in `User.fromJSON`). -/
def defaultStreak : Streak :=
  { current := 0, longest := 0, lastCompleted := none }

/-- The default stats value installed by the User constructor (and used as
the fallback in `User.fromJSON`). -/
def defaultStats : Stats :=
  { totalRoutinesCompleted := 0, totalTasksCompleted := 0, totalXPEarned := 0,
    achievements := [] }

/-- The source constructor `new User(username)`: six fresh skills, zero
streak, zero stats. -/
def User.init (username : String) (now : Nat) : User :=
  { username := username
    createdAt := some now
    lastActive := some now
    skills :=
      [("physical", Skill.init "Physical" "💪" "physical"),
       ("mental", Skill.init "Mental" "🧠" "mental"),
       ("discipline", Skill.init "Discipline" "🎯" "discipline"),
       ("productivity", Skill.init "Productivity" "⚡" "productivity"),
       ("logic", Skill.init "Logic" "🧩" "logic"),
       ("coding", Skill.init "Coding" "💻" "coding")]
    streak := defaultStreak
    stats := defaultStats }

/-- Lookup of `user.skills[category]`. -/
def getSkillEntry (skills : List (String × Skill)) (category : String) : Option Skill :=
  entryGet skills category

/-- Assignment `user.skills[category] = skill` (JS object semantics). -/
def setSkillEntry (skills : List (String × Skill)) (category : String) (s : Skill) :
    List (String × Skill) :=
  entrySet skills category s

/-- The fixed ascending streak bonus table `User.STREAK_BONUSES`
(day threshold, bonus fraction). -/
def STREAK_BONUSES : List (Nat × ℚ) :=
  [(5, 5 / 100), (7, 10 / 100), (15, 15 / 100),
   (25, 20 / 100), (50, 30 / 100), (100, 50 / 100)]

/-- `User.getStreakBonus`: iterate the ascending table, keeping the bonus of
the last tier whose threshold is satisfied; `0` when none is. -/
def User.getStreakBonus (u : User) : ℚ :=
  STREAK_BONUSES.foldl
    (fun bonus tier => if tier.1 ≤ u.streak.current then tier.2 else bonus) 0

/-- `User.updateStreak()`, at calendar-day granularity.  `today` is the
current day index.  No prior completion gives a streak of 1; a completion
earlier today leaves the streak unchanged; a completion yesterday increments
it; anything else resets it to 1.  The longest streak is raised to the new
current value when exceeded, and the last-completed stamp is set to today. -/
def User.updateStreak (u : User) (today : Nat) : User :=
  let current :=
    match u.streak.lastCompleted with
    | none => 1
    | some last =>
      if last = today then u.streak.current
      else if last + 1 = today then u.streak.current + 1
      else 1
  { u with streak :=
      { current := current
        longest := max u.streak.longest current
        lastCompleted := some today } }

/-- The result record returned by `User.addSkillXP`. -/
structure SkillXPResult where
  skill : String
  leveledUp : Bool
  newLevel : Nat
  xpGained : Nat
  streakBonus : ℚ
  deriving Repr, DecidableEq

/-- `User.addSkillXP(skillType, xp)`: a warning and a null result with no
mutation when the category is unknown; otherwise delegate to `Skill.addXP`
with the streak bonus, accumulate the adjusted XP into
`stats.totalXPEarned`, and stamp `lastActive`. -/
def User.addSkillXP (u : User) (skillType : String) (xp : Nat) (now : Nat) :
    User × Option SkillXPResult :=
  match getSkillEntry u.skills skillType with
  | none => (u, none)
  | some sk =>
    let streakBonus := u.getStreakBonus
    let r := sk.addXP xp streakBonus
    ({ u with
        skills := setSkillEntry u.skills skillType r.1
        stats := { u.stats with totalXPEarned := u.stats.totalXPEarned + r.2.xpGained }
        lastActive := some now },
     some { skill := skillType, leveledUp := r.2.leveledUp, newLevel := r.2.newLevel,
            xpGained := r.2.xpGained, streakBonus := streakBonus })

/-- `User.addRoutineRewards(skillRewards)`: apply `addSkillXP` to every
entry of the reward map, collecting the non-null results in order. -/
def User.addRoutineRewards (u : User) (skillRewards : List (String × Nat)) (now : Nat) :
    User × List SkillXPResult :=
  skillRewards.foldl
    (fun acc kv =>
      match acc.1.addSkillXP kv.1 kv.2 now with
      | (u2, some r) => (u2, acc.2 ++ [r])
      | (u2, none) => (u2, acc.2))
    (u, [])

/-- `User.completeTask()`: bump the lifetime task counter. -/
def User.completeTask (u : User) (now : Nat) : User :=
  { u with
      stats := { u.stats with totalTasksCompleted := u.stats.totalTasksCompleted + 1 }
      lastActive := some now }

/-- `User.completeRoutine()`: bump the lifetime routine counter, update the
streak, stamp `lastActive`. -/
def User.completeRoutine (u : User) (now : Nat) : User :=
  let u2 := { u with
    stats := { u.stats with totalRoutinesCompleted := u.stats.totalRoutinesCompleted + 1 } }
  let u3 := u2.updateStreak now
  { u3 with lastActive := some now }

/-- `User.unlockAchievement(id)`: add the id to the achievement set if new,
reporting whether it was newly added. -/
def User.unlockAchievement (u : User) (id : String) : User × Bool :=
  if id ∈ u.stats.achievements then (u, false)
  else
    ({ u with stats := { u.stats with achievements := u.stats.achievements ++ [id] } },
     true)

/-! ## Persistence snapshots (`fromJSON`) -/

/-- JS `value || default` on an optional numeric field: absent and zero both
fall back to the default (0 is falsy). -/
def jsNumOr (v : Option Nat) (d : Nat) : Nat :=
  match v with
  | some n => if n = 0 then d else n
  | none => d

/-- A persisted Skill snapshot; numeric fields can be absent. -/
structure SkillData where
  name : String
  icon : String
  type : String
  level : Option Nat
  currentXP : Option Nat
  totalXP : Option Nat
  prestige : Option Nat
  deriving Repr, DecidableEq

/-- `Skill.fromJSON(data)`: rebuild the skill, defaulting absent (or zero,
by JS falsiness) numeric fields to level 1 and zero XP and prestige. -/
def Skill.fromJSON (data : SkillData) : Skill :=
  { name := data.name, icon := data.icon, type := data.type,
    level := jsNumOr data.level 1,
    currentXP := jsNumOr data.currentXP 0,
    totalXP := jsNumOr data.totalXP 0,
    prestige := jsNumOr data.prestige 0 }

/-- A persisted User snapshot; every field can be absent. -/
structure UserData where
  username : Option String
  createdAt : Option Nat
  lastActive : Option Nat
  skills : Option (List (String × SkillData))
  streak : Option Streak
  stats : Option Stats
  deriving Repr, DecidableEq

/-- `User.fromJSON(data)`: construct a fresh user (the constructor default
username applies when the field is absent), copy `createdAt` and
`lastActive` verbatim, restore every skill listed in `data.skills` over the
six defaults, and fall back to the default streak and stats when those
fields are absent.  When `data.skills` itself is absent the source evaluates
`Object.entries(undefined)`, which throws a TypeError; that hard failure is
the error branch here. -/
def User.fromJSON (data : UserData) (now : Nat) : Except String User :=
  match data.skills with
  | none => .error "TypeError: Object.entries called on undefined"
  | some skillsData =>
    let u := User.init (data.username.getD "Hunter") now
    let u := { u with createdAt := data.createdAt, lastActive := data.lastActive }
    let restored := skillsData.foldl
      (fun sks (kv : String × SkillData) => setSkillEntry sks kv.1 (Skill.fromJSON kv.2))
      u.skills
    let u := { u with skills := restored }
    .ok { u with
      streak := data.streak.getD defaultStreak
      stats := data.stats.getD defaultStats }

/-! ## Routine definition -/

/-- A routine checklist item.  The source additionally spreads section id
and name into query results; those are presentation metadata and are not
modelled. -/
structure RoutineItem where
  id : String
  description : String
  duration : Nat
  skillRewards : Option (List (String × Nat))
  deriving Repr, DecidableEq

/-- A routine section: an id, a name and an ordered item list. -/
structure RoutineSection where
  id : String
  name : String
  items : List RoutineItem
  deriving Repr, DecidableEq

/-- The immutable routine definition. -/
structure Routine where
  id : String
  name : String
  description : String
  type : String
  icon : String
  startTime : String
  totalDuration : Nat
  skillRewards : List (String × Nat)
  sections : List RoutineSection
  deriving Repr, DecidableEq

/-- `Routine.getAllItems()`: all items of all sections, flattened in order. -/
def Routine.getAllItems (r : Routine) : List RoutineItem :=
  r.sections.foldl (fun acc sec => acc ++ sec.items) []

/-- `Routine.getTotalItemCount()`. -/
def Routine.getTotalItemCount (r : Routine) : Nat :=
  r.getAllItems.length

/-- `Routine.getItem(itemId)`: first item with the given id, searching
sections in order; `null` when absent. -/
def Routine.getItem (r : Routine) (itemId : String) : Option RoutineItem :=
  r.sections.findSome? (fun sec => sec.items.find? (fun i => i.id == itemId))

/-! ## RoutineSession -/

/-- The session status state machine values. -/
inductive SessionStatus where
  | not_started
  | in_progress
  | completed
  deriving Repr, DecidableEq

/-- The per-day completion state of one routine. -/
structure RoutineSession where
  routineId : String
  date : Nat
  startedAt : Option Nat
  completedAt : Option Nat
  status : SessionStatus
  completedItems : List String
  xpEarned : List (String × Int)
  deriving Repr, DecidableEq

/-- `new RoutineSession(routine, date)`. -/
def RoutineSession.init (routine : Routine) (date : Nat) : RoutineSession :=
  { routineId := routine.id, date := date, startedAt := none, completedAt := none,
    status := .not_started, completedItems := [], xpEarned := [] }

/-- `RoutineSession.start()`: stamp `startedAt` and move to `in_progress`,
only from `not_started`. -/
def RoutineSession.start (s : RoutineSession) (now : Nat) : RoutineSession :=
  if s.status = .not_started then
    { s with startedAt := some now, status := .in_progress }
  else s

/-- One reward entry accumulated into the ledger:
`xpEarned[skill] = (xpEarned[skill] || 0) + xp`. -/
def ledgerAddEntry (m : List (String × Int)) (k : String) (xp : Nat) :
    List (String × Int) :=
  objSet m k (objGet m k + (xp : Int))

/-- The reward-accumulation loop of `RoutineSession.completeItem`. -/
def ledgerAdd (m : List (String × Int)) (rewards : List (String × Nat)) :
    List (String × Int) :=
  rewards.foldl (fun acc kv => ledgerAddEntry acc kv.1 kv.2) m

/-- One reward entry subtracted from the ledger:
`xpEarned[skill] = (xpEarned[skill] || 0) - xp`, deleting the entry when the
result is zero or below. -/
def ledgerSubEntry (m : List (String × Int)) (k : String) (xp : Nat) :
    List (String × Int) :=
  let v := objGet m k - (xp : Int)
  if v ≤ 0 then objDelete m k else objSet m k v

/-- The reward-subtraction loop of `RoutineSession.uncompleteItem`. -/
def ledgerSub (m : List (String × Int)) (rewards : List (String × Nat)) :
    List (String × Int) :=
  rewards.foldl (fun acc kv => ledgerSubEntry acc kv.1 kv.2) m

/-- `RoutineSession.completeItem(itemId, skillRewards)`: a no-op when the
item is already completed; otherwise record it, accumulate each reward into
the `xpEarned` ledger, and auto-start the session when it had not started. -/
def RoutineSession.completeItem (s : RoutineSession) (itemId : String)
    (skillRewards : Option (List (String × Nat))) (now : Nat) : RoutineSession :=
  if itemId ∈ s.completedItems then s
  else
    let s1 := { s with completedItems := s.completedItems ++ [itemId] }
    let s2 : RoutineSession :=
      match skillRewards with
      | some rewards => { s1 with xpEarned := ledgerAdd s1.xpEarned rewards }
      | none => s1
    if s2.status = .not_started then s2.start now else s2

/-- `RoutineSession.uncompleteItem(itemId, skillRewards)`: a no-op when the
item is not completed; otherwise remove it and subtract the rewards from the
ledger, deleting any category whose value drops to zero or below. -/
def RoutineSession.uncompleteItem (s : RoutineSession) (itemId : String)
    (skillRewards : Option (List (String × Nat))) : RoutineSession :=
  if itemId ∈ s.completedItems then
    let s1 := { s with completedItems := s.completedItems.filter (fun i => !(i == itemId)) }
    match skillRewards with
    | some rewards => { s1 with xpEarned := ledgerSub s1.xpEarned rewards }
    | none => s1
  else s

/-- `RoutineSession.isComplete(routine)`: all items of the routine are
completed (recomputed from sizes, not cached). -/
def RoutineSession.isComplete (s : RoutineSession) (r : Routine) : Bool :=
  s.completedItems.length == r.getTotalItemCount

/-- `RoutineSession.complete()`: stamp `completedAt` and set the status to
`completed`, unless already completed. -/
def RoutineSession.complete (s : RoutineSession) (now : Nat) : RoutineSession :=
  if s.status ≠ .completed then
    { s with completedAt := some now, status := .completed }
  else s

/-! ## RoutineManager orchestration

The manager resolves the routine, its session for today and the item, and
then runs the completion pipeline.  The session-cache and storage plumbing
is outside the core; the resolved routine and session are taken as
arguments, and the mutated session and user are returned alongside the
result record. -/

/-- The composite result returned by `RoutineManager.completeItem`. -/
structure CompleteItemResult where
  item : RoutineItem
  xpResults : List SkillXPResult
  isRoutineComplete : Bool
  deriving Repr, DecidableEq

namespace RoutineManager

/-- `RoutineManager.completeItem(routineId, itemId, user)`: a null result
with nothing mutated when the item id is unknown; otherwise mark the item
complete on the session, award the item rewards to the user, bump the task
counter, and when the session is now fully complete, complete it and invoke
`user.completeRoutine()`. -/
def completeItem (routine : Routine) (session : RoutineSession) (user : User)
    (itemId : String) (now : Nat) :
    Option CompleteItemResult × RoutineSession × User :=
  match routine.getItem itemId with
  | none => (none, session, user)
  | some item =>
    let session1 := session.completeItem itemId item.skillRewards now
    let ur := user.addRoutineRewards (item.skillRewards.getD []) now
    let user1 := ur.1.completeTask now
    let su :=
      if session1.isComplete routine then
        (session1.complete now, user1.completeRoutine now)
      else (session1, user1)
    (some { item := item, xpResults := ur.2,
            isRoutineComplete := su.1.isComplete routine },
     su.1, su.2)

/-- `RoutineManager.uncompleteItem(routineId, itemId)`: a null result with
nothing mutated when the item id is unknown; otherwise uncomplete the item
on the session.  No user-side effect is reversed. -/
def uncompleteItem (routine : Routine) (session : RoutineSession) (itemId : String) :
    Option RoutineItem × RoutineSession :=
  match routine.getItem itemId with
  | none => (none, session)
  | some item => (some item, session.uncompleteItem itemId item.skillRewards)

end RoutineManager

/-! ## Achievements -/

/-- The threshold condition forms used by the achievement catalog. -/
def streakCond (n : Nat) (u : User) : Bool :=
  decide (n ≤ u.streak.current)

/-- Routine-count threshold condition. -/
def routineCountCond (n : Nat) (u : User) : Bool :=
  decide (n ≤ u.stats.totalRoutinesCompleted)

/-- Task-count threshold condition. -/
def taskCountCond (n : Nat) (u : User) : Bool :=
  decide (n ≤ u.stats.totalTasksCompleted)

/-- Total-XP threshold condition. -/
def xpCond (n : Nat) (u : User) : Bool :=
  decide (n ≤ u.stats.totalXPEarned)

/-- Some-skill level threshold condition
(`Object.values(user.skills).some(s => s.level >= n)`). -/
def skillLevelCond (n : Nat) (u : User) : Bool :=
  u.skills.any (fun p => decide (n ≤ p.2.level))

/-- Every-skill level threshold condition. -/
def allSkillLevelCond (n : Nat) (u : User) : Bool :=
  u.skills.all (fun p => decide (n ≤ p.2.level))

/-- Some-skill prestige threshold condition. -/
def prestigeCond (n : Nat) (u : User) : Bool :=
  u.skills.any (fun p => decide (n ≤ p.2.prestige))

/-- An achievement: id, display data, unlock predicate over the user, and
the one-shot unlock timestamp. -/
structure Achievement where
  id : String
  name : String
  description : String
  icon : String
  condition : User → Bool
  unlockedAt : Option Nat

/-- A catalog entry before the manager wraps it (no timestamp yet). -/
def Achievement.ofCatalog (id name description icon : String)
    (condition : User → Bool) : Achievement :=
  { id := id, name := name, description := description, icon := icon,
    condition := condition, unlockedAt := none }

/-- The predefined `ACHIEVEMENTS` catalog. -/
def ACHIEVEMENTS : List Achievement :=
  [Achievement.ofCatalog "first-routine" "First Steps" "Complete your first routine" "🎯"
     (routineCountCond 1),
   Achievement.ofCatalog "first-task" "Getting Started" "Complete your first task" "✅"
     (taskCountCond 1),
   Achievement.ofCatalog "streak-5" "Consistent" "Maintain a 5-day streak" "🔥"
     (streakCond 5),
   Achievement.ofCatalog "streak-7" "Week Warrior" "Maintain a 7-day streak" "🔥"
     (streakCond 7),
   Achievement.ofCatalog "streak-15" "Two Weeks Strong" "Maintain a 15-day streak" "🔥🔥"
     (streakCond 15),
   Achievement.ofCatalog "streak-25" "Dedicated" "Maintain a 25-day streak" "🔥🔥"
     (streakCond 25),
   Achievement.ofCatalog "streak-100" "Unstoppable" "Maintain a 100-day streak" "🔥🔥🔥"
     (streakCond 100),
   Achievement.ofCatalog "streak-1000" "Legend" "Maintain a 1000-day streak" "🔥🔥🔥🔥🔥"
     (streakCond 1000),
   Achievement.ofCatalog "routine-10" "Building Habits" "Complete 10 routines" "📈"
     (routineCountCond 10),
   Achievement.ofCatalog "routine-25" "Habit Master" "Complete 25 routines" "📈"
     (routineCountCond 25),
   Achievement.ofCatalog "routine-50" "Routine Expert" "Complete 50 routines" "🏆"
     (routineCountCond 50),
   Achievement.ofCatalog "routine-100" "Century" "Complete 100 routines" "🏆"
     (routineCountCond 100),
   Achievement.ofCatalog "skill-level-10" "Novice" "Reach level 10 in any skill" "⭐"
     (skillLevelCond 10),
   Achievement.ofCatalog "skill-level-25" "Skilled" "Reach level 25 in any skill" "⭐⭐"
     (skillLevelCond 25),
   Achievement.ofCatalog "skill-level-50" "Advanced" "Reach level 50 in any skill" "⭐⭐⭐"
     (skillLevelCond 50),
   Achievement.ofCatalog "skill-level-75" "Expert" "Reach level 75 in any skill" "🌟"
     (skillLevelCond 75),
   Achievement.ofCatalog "skill-level-100" "Mastery" "Reach level 100 in any skill" "💎"
     (skillLevelCond 100),
   Achievement.ofCatalog "all-skills-10" "Well Rounded" "Reach level 10 in all skills" "🎯"
     (allSkillLevelCond 10),
   Achievement.ofCatalog "all-skills-25" "Balanced" "Reach level 25 in all skills" "⚖️"
     (allSkillLevelCond 25),
   Achievement.ofCatalog "all-skills-50" "Renaissance" "Reach level 50 in all skills" "👑"
     (allSkillLevelCond 50),
   Achievement.ofCatalog "first-prestige" "New Game+" "Prestige a skill for the first time" "🌠"
     (prestigeCond 1),
   Achievement.ofCatalog "prestige-5" "Eternal Student" "Reach prestige 5 in any skill" "♾️"
     (prestigeCond 5),
   Achievement.ofCatalog "xp-1000" "XP Collector" "Earn 1,000 total XP" "💫"
     (xpCond 1000),
   Achievement.ofCatalog "xp-10000" "XP Hoarder" "Earn 10,000 total XP" "✨"
     (xpCond 10000),
   Achievement.ofCatalog "xp-50000" "XP Master" "Earn 50,000 total XP" "🌟"
     (xpCond 50000),
   Achievement.ofCatalog "tasks-100" "Task Warrior" "Complete 100 tasks" "⚔️"
     (taskCountCond 100),
   Achievement.ofCatalog "tasks-500" "Task Champion" "Complete 500 tasks" "🏅"
     (taskCountCond 500),
   Achievement.ofCatalog "tasks-1000" "Task Legend" "Complete 1,000 tasks" "👑"
     (taskCountCond 1000)]

namespace AchievementManager

/-- `AchievementManager.checkAchievements(user)`: walk the catalog in order;
skip achievements already unlocked, and for each not-yet-unlocked
achievement whose condition holds of the current user, unlock it (stamping
`unlockedAt` and adding the id to the user achievement set) and report it as
newly unlocked.  The iteration of the source loop is rendered as structural
recursion over the catalog list; the updated catalog, the updated user and
the newly unlocked ids are returned. -/
def checkAchievements : List Achievement → User → Nat →
    List Achievement × User × List String
  | [], u, _ => ([], u, [])
  | a :: rest, u, now =>
    if a.unlockedAt.isSome then
      let r := checkAchievements rest u now
      (a :: r.1, r.2.1, r.2.2)
    else if a.condition u then
      let u1 := (u.unlockAchievement a.id).1
      let r := checkAchievements rest u1 now
      ({ a with unlockedAt := some now } :: r.1, r.2.1, a.id :: r.2.2)
    else
      let r := checkAchievements rest u now
      (a :: r.1, r.2.1, r.2.2)

/-- A chain of further `checkAchievements` calls: the catalog state after
evaluating each listed (user, time) snapshot in turn. -/
def runChecks (achievements : List Achievement) : List (User × Nat) → List Achievement
  | [] => achievements
  | (u, t) :: rest => runChecks (checkAchievements achievements u t).1 rest

end AchievementManager

/-! ## The user-mutating operations of the core

Every way the source mutates a `User` after creation: XP awards, the task
and routine counters, streak updates, achievement unlocks, and the prestige
reset reachable from the application layer (`App.prestigeSkill`, which
guards on level 100 and delegates to the prestige method of the skill). -/

/-- `App.prestigeSkill(skillType)` restricted to its user-state effect:
look the skill up, refuse below level 100, otherwise apply the prestige
reset to that skill. -/
def User.prestigeSkill (u : User) (category : String) : User :=
  match getSkillEntry u.skills category with
  | none => u
  | some sk =>
    if sk.level < 100 then u
    else
      match sk.prestigeOp with
      | .ok r => { u with skills := setSkillEntry u.skills category r.1 }
      | .error _ => u

/-- One user-mutating operation of the core. -/
inductive UserOp where
  | addSkillXP (category : String) (xp : Nat) (now : Nat)
  | addRoutineRewards (rewards : List (String × Nat)) (now : Nat)
  | completeTask (now : Nat)
  | completeRoutine (now : Nat)
  | updateStreak (today : Nat)
  | unlockAchievement (id : String)
  | prestigeSkill (category : String)
  deriving Repr, DecidableEq

/-- Apply one operation to a user. -/
def UserOp.apply : UserOp → User → User
  | .addSkillXP c x n, u => (u.addSkillXP c x n).1
  | .addRoutineRewards rewards n, u => (u.addRoutineRewards rewards n).1
  | .completeTask n, u => u.completeTask n
  | .completeRoutine n, u => u.completeRoutine n
  | .updateStreak t, u => u.updateStreak t
  | .unlockAchievement i, u => (u.unlockAchievement i).1
  | .prestigeSkill c, u => u.prestigeSkill c

/-- Apply a sequence of operations in order. -/
def applyOps (ops : List UserOp) (u : User) : User :=
  ops.foldl (fun v op => op.apply v) u

/-- Spec-side reference definition for the streak bonus, written from the
specification wording: the bonus of the highest-threshold tier of the table
whose day count is at most the current streak, and 0 when none qualifies.
It is compared with the source-derived `User.getStreakBonus`. -/
def specHighestSatisfiedTierBonus (current : Nat) : ℚ :=
  if 100 ≤ current then 50 / 100
  else if 50 ≤ current then 30 / 100
  else if 25 ≤ current then 20 / 100
  else if 15 ≤ current then 15 / 100
  else if 7 ≤ current then 10 / 100
  else if 5 ≤ current then 5 / 100
  else 0

/-- The prestige count of the skill stored under a category key
(0 when the category is unknown); an auxiliary observation used to state
monotonicity of the prestige-threshold achievement conditions. -/
def prestigeAt (u : User) (k : String) : Nat :=
  ((entryGet u.skills k).map Skill.prestige).getD 0

/-- The user component of the reward fold of `addRoutineRewards`
(the per-entry result records dropped); an auxiliary form used to reason
about the fold by induction. -/
def applyRewardsUser (u : User) (rewards : List (String × Nat)) (n : Nat) : User :=
  rewards.foldl (fun v kv => (v.addSkillXP kv.1 kv.2 n).1) u

/-- An achievement with the given id is recorded as unlocked in the catalog
state. -/
def unlockedIn (catalog : List Achievement) (id : String) : Prop :=
  ∃ a, a ∈ catalog ∧ a.id = id ∧ a.unlockedAt.isSome = true

/-! ## Concrete sample values used in closed-form checks -/

/-- A skill below the prestige threshold. -/
def sampleSkill42 : Skill :=
  { name := "Physical", icon := "💪", type := "physical",
    level := 42, currentXP := 10, totalXP := 999, prestige := 1 }

/-- A skill at the prestige threshold. -/
def sampleSkill100 : Skill :=
  { name := "Physical", icon := "💪", type := "physical",
    level := 100, currentXP := 50, totalXP := 12345, prestige := 2 }

/-- A fresh level-1 skill with no prestige, as in the cascade scenario. -/
def sampleLogicSkill : Skill := Skill.init "Logic" "🧩" "logic"

/-- A user with a 7-day streak. -/
def sampleUser7 : User :=
  { User.init "Hunter" 0 with streak := { current := 7, longest := 7, lastCompleted := some 6 } }

/-- A user with a 5-day streak whose last completion was day 10. -/
def sampleStreakUser : User :=
  { User.init "Hunter" 0 with streak := { current := 5, longest := 5, lastCompleted := some 10 } }

/-- A user holding one level-100 skill. -/
def sampleMasterUser : User :=
  { User.init "Hunter" 0 with skills :=
      [("physical",
        { name := "Physical", icon := "💪", type := "physical",
          level := 100, currentXP := 0, totalXP := 50000, prestige := 0 })] }

/-- A user who has completed one task. -/
def sampleTaskUser : User :=
  { User.init "Hunter" 0 with stats :=
      { defaultStats with totalTasksCompleted := 1 } }

/-- A one-achievement catalog. -/
def sampleCatalog : List Achievement :=
  [Achievement.ofCatalog "first-task" "Getting Started" "Complete your first task" "✅"
    (taskCountCond 1)]

/-- A routine with one section holding one item. -/
def sampleItem : RoutineItem :=
  { id := "a", description := "Pushups", duration := 5,
    skillRewards := some [("physical", 10)] }

/-- The enclosing sample routine. -/
def sampleRoutine : Routine :=
  { id := "morning", name := "Morning", description := "", type := "morning",
    icon := "🌅", startTime := "06:00", totalDuration := 30, skillRewards := [],
    sections := [{ id := "warmup", name := "Warmup", items := [sampleItem] }] }

/-- A session of the sample routine with its single item completed. -/
def sampleCompletedSession : RoutineSession :=
  { routineId := "morning", date := 0, startedAt := some 0, completedAt := some 1,
    status := .completed, completedItems := ["a"], xpEarned := [("physical", 10)] }

/-- A mid-run session holding one completed item worth 5 physical XP. -/
def sampleMidSession : RoutineSession :=
  { routineId := "morning", date := 0, startedAt := some 0, completedAt := none,
    status := .in_progress, completedItems := ["a"], xpEarned := [("physical", 5)] }

/-- A fresh, empty session of the sample routine. -/
def sampleFreshSession : RoutineSession := RoutineSession.init sampleRoutine 0

/-- A snapshot with every field absent. -/
def emptySnapshot : UserData :=
  { username := none, createdAt := none, lastActive := none,
    skills := none, streak := none, stats := none }

/-- A snapshot carrying only an empty skills object. -/
def minimalSnapshot : UserData :=
  { username := none, createdAt := none, lastActive := none,
    skills := some [], streak := none, stats := none }

/-! ## Lemmas: association-list primitives -/

/-- The pointwise update applied by `entrySet` on a present key. -/
def updEntry {α : Type} (k : String) (v : α) (p : String × α) : String × α :=
  if p.1 == k then (k, v) else p

section AssocLemmas

variable {α : Type}

theorem any_key_iff (m : List (String × α)) (k : String) :
    (m.any fun p => p.1 == k) = true ↔ k ∈ m.map Prod.fst := by
  simp [List.any_eq_true]

theorem entrySet_of_mem {m : List (String × α)} {k : String} (v : α)
    (h : k ∈ m.map Prod.fst) : entrySet m k v = m.map (updEntry k v) := by
  unfold entrySet
  rw [if_pos ((any_key_iff m k).mpr h)]
  rfl

theorem entrySet_of_not_mem {m : List (String × α)} {k : String} (v : α)
    (h : k ∉ m.map Prod.fst) : entrySet m k v = m ++ [(k, v)] := by
  unfold entrySet
  rw [if_neg (fun hc => h ((any_key_iff m k).mp hc))]

theorem fst_updEntry (k : String) (v : α) (p : String × α) :
    (updEntry k v p).1 = p.1 := by
  unfold updEntry
  split
  · next h => exact (beq_iff_eq.mp h).symm
  · rfl

theorem keys_map_updEntry (m : List (String × α)) (k : String) (v : α) :
    (m.map (updEntry k v)).map Prod.fst = m.map Prod.fst := by
  rw [List.map_map]
  exact List.map_congr_left fun p _ => fst_updEntry k v p

theorem keys_entrySet_of_mem {m : List (String × α)} {k : String} (v : α)
    (h : k ∈ m.map Prod.fst) :
    (entrySet m k v).map Prod.fst = m.map Prod.fst := by
  rw [entrySet_of_mem v h, keys_map_updEntry]

theorem entryGet_cons (p : String × α) (m : List (String × α)) (k : String) :
    entryGet (p :: m) k = if p.1 = k then some p.2 else entryGet m k := by
  unfold entryGet
  rw [List.find?_cons]
  by_cases h : p.1 = k
  · have hb : (p.1 == k) = true := by simpa using h
    simp [hb, h]
  · have hb : (p.1 == k) = false := by simpa using h
    simp [hb, h]

theorem entryGet_nil (k : String) : entryGet ([] : List (String × α)) k = none := rfl

theorem entryGet_append (m l : List (String × α)) (k : String) :
    entryGet (m ++ l) k = ((entryGet m k).orElse fun _ => entryGet l k) := by
  induction m with
  | nil => simp [entryGet_nil]
  | cons p t ih =>
    rw [List.cons_append, entryGet_cons, entryGet_cons]
    by_cases h : p.1 = k
    · simp [h]
    · simp [h, ih]

theorem entryGet_map_updEntry_ne {k k1 : String} (m : List (String × α)) (v1 : α)
    (h : k ≠ k1) :
    entryGet (m.map (updEntry k1 v1)) k = entryGet m k := by
  induction m with
  | nil => rfl
  | cons p t ih =>
    rw [List.map_cons, entryGet_cons, entryGet_cons]
    by_cases hpk : p.1 = k1
    · have h1 : (updEntry k1 v1 p).1 = p.1 := fst_updEntry k1 v1 p
      rw [h1]
      by_cases hp : p.1 = k
      · exact absurd (hp ▸ hpk) (by simpa [hp] using h)
      · simp [hp, ih]
    · have hu : updEntry k1 v1 p = p := by simp [updEntry, hpk]
      rw [hu]
      by_cases hp : p.1 = k
      · simp [hp]
      · simp [hp, ih]

theorem entryGet_map_updEntry_self {m : List (String × α)} {k : String} (v : α)
    (h : k ∈ m.map Prod.fst) :
    entryGet (m.map (updEntry k v)) k = some v := by
  induction m with
  | nil => simp at h
  | cons p t ih =>
    rw [List.map_cons, entryGet_cons]
    by_cases hpk : p.1 = k
    · have hu : updEntry k v p = (k, v) := by simp [updEntry, hpk]
      rw [hu]
      simp
    · have hu : updEntry k v p = p := by simp [updEntry, hpk]
      rw [hu]
      rw [if_neg hpk]
      apply ih
      rcases List.mem_map.mp h with ⟨q, hq, hq2⟩
      rcases List.mem_cons.mp hq with hq | hq
      · exact absurd (hq ▸ hq2) hpk
      · exact List.mem_map.mpr ⟨q, hq, hq2⟩

theorem entryGet_eq_none_of_not_mem {m : List (String × α)} {k : String}
    (h : k ∉ m.map Prod.fst) : entryGet m k = none := by
  have hf : m.find? (fun p => p.1 == k) = none := by
    rw [List.find?_eq_none]
    intro p hp
    simp only [beq_iff_eq]
    intro hc
    exact h (List.mem_map.mpr ⟨p, hp, hc⟩)
  unfold entryGet
  rw [hf]
  rfl

theorem entryGet_single_ne {k k1 : String} (v1 : α) (h : k ≠ k1) :
    entryGet [(k1, v1)] k = none := by
  rw [entryGet_cons]
  simp [Ne.symm h, entryGet_nil]

theorem entryGet_entrySet_self (m : List (String × α)) (k : String) (v : α) :
    entryGet (entrySet m k v) k = some v := by
  by_cases h : k ∈ m.map Prod.fst
  · rw [entrySet_of_mem v h]
    exact entryGet_map_updEntry_self v h
  · rw [entrySet_of_not_mem v h, entryGet_append,
      entryGet_eq_none_of_not_mem h, entryGet_cons]
    simp

theorem entryGet_entrySet_ne {k k1 : String} (m : List (String × α)) (v1 : α)
    (h : k ≠ k1) : entryGet (entrySet m k1 v1) k = entryGet m k := by
  by_cases h1 : k1 ∈ m.map Prod.fst
  · rw [entrySet_of_mem v1 h1]
    exact entryGet_map_updEntry_ne m v1 h
  · rw [entrySet_of_not_mem v1 h1, entryGet_append, entryGet_single_ne v1 h]
    cases hm : entryGet m k
    · rfl
    · rfl

theorem entryDelete_nil (k : String) : entryDelete ([] : List (String × α)) k = [] := rfl

theorem entryDelete_cons (p : String × α) (t : List (String × α)) (k : String) :
    entryDelete (p :: t) k =
      if p.1 = k then entryDelete t k else p :: entryDelete t k := by
  unfold entryDelete
  rw [List.filter_cons]
  by_cases hp : p.1 = k
  · simp [hp]
  · simp [hp]

theorem entryDelete_of_not_mem {m : List (String × α)} {k : String}
    (h : k ∉ m.map Prod.fst) : entryDelete m k = m := by
  induction m with
  | nil => rfl
  | cons p t ih =>
    have hp : p.1 ≠ k := fun hc => h (List.mem_map.mpr ⟨p, List.mem_cons_self p t, hc⟩)
    have ht : k ∉ t.map Prod.fst := fun hc => h (by
      rcases List.mem_map.mp hc with ⟨q, hq, hqe⟩
      exact List.mem_map.mpr ⟨q, List.mem_cons_of_mem p hq, hqe⟩)
    rw [entryDelete_cons, if_neg hp, ih ht]

theorem keys_entryDelete_subset (m : List (String × α)) (k : String) :
    ((entryDelete m k).map Prod.fst) ⊆ m.map Prod.fst := by
  intro x hx
  rcases List.mem_map.mp hx with ⟨p, hp, hpe⟩
  exact List.mem_map.mpr ⟨p, List.mem_of_mem_filter hp, hpe⟩

theorem mem_keys_entryDelete {m : List (String × α)} {k k1 : String}
    (hne : k1 ≠ k) (h : k1 ∈ m.map Prod.fst) :
    k1 ∈ (entryDelete m k).map Prod.fst := by
  induction m with
  | nil => exact absurd h (by simp)
  | cons p t ih =>
    rw [entryDelete_cons]
    rcases List.mem_map.mp h with ⟨q, hq, hqe⟩
    rcases List.mem_cons.mp hq with hq | hq
    · have hp1 : p.1 = k1 := by rw [← hq]; exact hqe
      have hpk : p.1 ≠ k := by rw [hp1]; exact hne
      rw [if_neg hpk, List.map_cons]
      exact List.mem_cons.mpr (Or.inl hp1.symm)
    · have ht : k1 ∈ t.map Prod.fst := List.mem_map.mpr ⟨q, hq, hqe⟩
      by_cases hpk : p.1 = k
      · rw [if_pos hpk]
        exact ih ht
      · rw [if_neg hpk, List.map_cons]
        exact List.mem_cons.mpr (Or.inr (ih ht))

theorem entryGet_entryDelete_ne {k k1 : String} (m : List (String × α))
    (h : k ≠ k1) : entryGet (entryDelete m k1) k = entryGet m k := by
  induction m with
  | nil => rfl
  | cons p t ih =>
    rw [entryDelete_cons, entryGet_cons]
    by_cases hpk : p.1 = k1
    · have hpne : ¬ p.1 = k := by rw [hpk]; exact Ne.symm h
      rw [if_pos hpk, if_neg hpne, ih]
    · rw [if_neg hpk, entryGet_cons]
      by_cases hp : p.1 = k
      · simp [hp]
      · simp [hp, ih]

theorem entryDelete_map_updEntry (m : List (String × α)) (k k1 : String) (v1 : α) :
    entryDelete (m.map (updEntry k1 v1)) k = (entryDelete m k).map (updEntry k1 v1) := by
  induction m with
  | nil => rfl
  | cons p t ih =>
    rw [List.map_cons, entryDelete_cons, entryDelete_cons, fst_updEntry]
    by_cases hp : p.1 = k
    · rw [if_pos hp, if_pos hp, ih]
    · rw [if_neg hp, if_neg hp, List.map_cons, ih]

theorem entryDelete_entrySet_ne {k k1 : String} (m : List (String × α)) (v1 : α)
    (hne : k ≠ k1) :
    entryDelete (entrySet m k1 v1) k = entrySet (entryDelete m k) k1 v1 := by
  by_cases h1 : k1 ∈ m.map Prod.fst
  · rw [entrySet_of_mem v1 h1]
    rw [entrySet_of_mem v1 (mem_keys_entryDelete (Ne.symm hne) h1)]
    exact entryDelete_map_updEntry m k k1 v1
  · rw [entrySet_of_not_mem v1 h1]
    have h2 : k1 ∉ (entryDelete m k).map Prod.fst :=
      fun hc => h1 (keys_entryDelete_subset m k hc)
    rw [entrySet_of_not_mem v1 h2]
    unfold entryDelete
    rw [List.filter_append]
    congr 1
    rw [List.filter_cons]
    have hb : (!((k1, v1).1 == k)) = true := by simp [Ne.symm hne]
    rw [hb]
    simp

theorem map_updEntry_of_not_mem {m : List (String × α)} {k : String} (v : α)
    (h : k ∉ m.map Prod.fst) : m.map (updEntry k v) = m := by
  induction m with
  | nil => rfl
  | cons p t ih =>
    have hp : p.1 ≠ k := fun hc => h (List.mem_map.mpr ⟨p, List.mem_cons_self p t, hc⟩)
    have ht : k ∉ t.map Prod.fst := fun hc => h (by
      rcases List.mem_map.mp hc with ⟨q, hq, hqe⟩
      exact List.mem_map.mpr ⟨q, List.mem_cons_of_mem p hq, hqe⟩)
    rw [List.map_cons, ih ht]
    congr 1
    simp [updEntry, hp]

theorem entrySet_entrySet_self (m : List (String × α)) (k : String) (a b : α) :
    entrySet (entrySet m k a) k b = entrySet m k b := by
  by_cases h : k ∈ m.map Prod.fst
  · rw [entrySet_of_mem a h, entrySet_of_mem b (by rw [keys_map_updEntry]; exact h),
      entrySet_of_mem b h, List.map_map]
    apply List.map_congr_left
    intro p _
    by_cases hp : p.1 = k
    · simp [updEntry, hp]
    · simp [updEntry, hp]
  · rw [entrySet_of_not_mem a h]
    have h2 : k ∈ (m ++ [(k, a)]).map Prod.fst := by simp
    rw [entrySet_of_mem b h2, List.map_append, map_updEntry_of_not_mem b h,
      entrySet_of_not_mem b h]
    congr 1
    simp [updEntry]

theorem entrySet_entrySet_ne {k k1 : String} (m : List (String × α)) (v v1 : α)
    (hne : k ≠ k1) (hk : k ∈ m.map Prod.fst) :
    entrySet (entrySet m k1 v1) k v = entrySet (entrySet m k v) k1 v1 := by
  by_cases h1 : k1 ∈ m.map Prod.fst
  · rw [entrySet_of_mem v1 h1, entrySet_of_mem v (by rw [keys_map_updEntry]; exact hk),
      entrySet_of_mem v hk, entrySet_of_mem v1 (by rw [keys_map_updEntry]; exact h1),
      List.map_map, List.map_map]
    apply List.map_congr_left
    intro p _
    by_cases hp1 : p.1 = k1
    · simp [updEntry, Function.comp, hp1, Ne.symm hne, hne]
    · by_cases hp : p.1 = k
      · simp [updEntry, Function.comp, hp1, hp, hne, Ne.symm hne]
      · simp [updEntry, Function.comp, hp1, hp]
  · rw [entrySet_of_not_mem v1 h1,
      entrySet_of_mem v (by simp only [List.map_append]; exact List.mem_append_left _ hk),
      entrySet_of_mem v hk]
    have h2 : k1 ∉ (m.map (updEntry k v)).map Prod.fst := by
      rw [keys_map_updEntry]; exact h1
    rw [entrySet_of_not_mem v1 h2, List.map_append]
    congr 1
    simp [updEntry, Ne.symm hne]

theorem mem_of_entryGet {m : List (String × α)} {k : String} {v : α}
    (h : entryGet m k = some v) : (k, v) ∈ m := by
  unfold entryGet at h
  cases hf : m.find? (fun p => p.1 == k) with
  | none => rw [hf] at h; exact absurd h (by simp)
  | some p =>
    rw [hf] at h
    have hp1 : p.1 = k := by
      have hb := List.find?_some hf
      simpa using hb
    have hp2 : p.2 = v := by simpa using h
    have hpv : p = (k, v) := Prod.ext hp1 hp2
    exact hpv ▸ List.mem_of_find?_eq_some hf

theorem entrySet_entryGet_self {m : List (String × α)} {k : String} {v : α}
    (hnd : (m.map Prod.fst).Nodup) (h : entryGet m k = some v) :
    entrySet m k v = m := by
  have hk : k ∈ m.map Prod.fst :=
    List.mem_map.mpr ⟨(k, v), mem_of_entryGet h, rfl⟩
  rw [entrySet_of_mem v hk]
  induction m with
  | nil => rfl
  | cons p t ih =>
    rw [List.map_cons] at hnd
    rw [entryGet_cons] at h
    rw [List.map_cons]
    by_cases hp : p.1 = k
    · rw [if_pos hp] at h
      have hv : p.2 = v := by simpa using h
      have ht : k ∉ t.map Prod.fst := by
        have := List.nodup_cons.mp hnd
        exact hp ▸ this.1
      rw [map_updEntry_of_not_mem v ht]
      congr 1
      have hu : updEntry k v p = (k, v) := by simp [updEntry, hp]
      rw [hu, ← hv]
      exact Prod.ext hp.symm rfl
    · rw [if_neg hp] at h
      have ht := (List.nodup_cons.mp hnd).2
      have hkt : k ∈ t.map Prod.fst :=
        List.mem_map.mpr ⟨(k, v), mem_of_entryGet h, rfl⟩
      rw [ih ht h hkt]
      congr 1
      simp [updEntry, hp]

theorem mem_entrySet {m : List (String × α)} {k : String} {v : α} {p : String × α}
    (h : p ∈ entrySet m k v) : p ∈ m ∨ p = (k, v) := by
  by_cases hk : k ∈ m.map Prod.fst
  · rw [entrySet_of_mem v hk] at h
    rcases List.mem_map.mp h with ⟨q, hq, hqe⟩
    by_cases hq1 : q.1 = k
    · right
      rw [← hqe]
      simp [updEntry, hq1]
    · left
      have hu : updEntry k v q = q := by simp [updEntry, hq1]
      rw [← hqe, hu]
      exact hq
  · rw [entrySet_of_not_mem v hk] at h
    rcases List.mem_append.mp h with h | h
    · exact Or.inl h
    · exact Or.inr (by simpa using h)

theorem mem_entryDelete_sub {m : List (String × α)} {k : String} {p : String × α}
    (h : p ∈ entryDelete m k) : p ∈ m :=
  List.mem_of_mem_filter h

theorem nodup_keys_entrySet {m : List (String × α)} {k : String} (v : α)
    (hnd : (m.map Prod.fst).Nodup) :
    ((entrySet m k v).map Prod.fst).Nodup := by
  by_cases hk : k ∈ m.map Prod.fst
  · rw [keys_entrySet_of_mem v hk]
    exact hnd
  · rw [entrySet_of_not_mem v hk, List.map_append]
    simp only [List.map_cons, List.map_nil]
    rw [List.nodup_append]
    refine ⟨hnd, List.nodup_singleton _, ?_⟩
    intro x hx hxk
    rw [List.mem_singleton] at hxk
    exact hk (hxk ▸ hx)

theorem entryGet_of_mem_nodup {m : List (String × α)} {p : String × α}
    (hnd : (m.map Prod.fst).Nodup) (h : p ∈ m) :
    entryGet m p.1 = some p.2 := by
  induction m with
  | nil => exact absurd h (by simp)
  | cons q t ih =>
    rw [List.map_cons] at hnd
    rw [entryGet_cons]
    rcases List.mem_cons.mp h with h | h
    · rw [h]
      simp
    · have hne : q.1 ≠ p.1 := by
        intro hc
        exact (List.nodup_cons.mp hnd).1
          (List.mem_map.mpr ⟨p, h, hc.symm⟩)
      rw [if_neg hne]
      exact ih (List.nodup_cons.mp hnd).2 h

end AssocLemmas

/-! ## Lemmas: the level-up loop -/

theorem xpRequiredAt_pos {l : Nat} (h : l < 100) (h1 : 1 ≤ l) : 0 < xpRequiredAt l := by
  unfold xpRequiredAt
  rw [if_neg (by omega)]
  have hl3 : 1 ≤ l ^ 3 := Nat.one_le_pow 3 l (by omega)
  have hle : (100 : Nat) * 100 ≤ 10000 * l ^ 3 := by nlinarith
  have := Nat.sqrt_le_sqrt hle
  have h100 : Nat.sqrt (100 * 100) = 100 := by
    rw [show (100 : Nat) * 100 = 100 ^ 2 by ring, Nat.sqrt_eq']
  omega

theorem levelLoopFuel_post (f : Nat) : ∀ l c : Nat, 100 - l ≤ f →
    (levelLoopFuel f l c).1 < 100 →
    (levelLoopFuel f l c).2 < xpRequiredAt (levelLoopFuel f l c).1 := by
  induction f with
  | zero =>
    intro l c hf
    simp only [levelLoopFuel]
    omega
  | succ f ih =>
    intro l c hf
    rw [levelLoopFuel]
    by_cases h : xpRequiredAt l ≤ c ∧ l < 100
    · rw [if_pos h]
      exact ih (l + 1) (c - xpRequiredAt l) (by omega)
    · rw [if_neg h]
      intro hl
      simp only at hl ⊢
      omega

theorem levelLoop_post (l c : Nat) :
    (levelLoop l c).1 < 100 →
    (levelLoop l c).2 < xpRequiredAt (levelLoop l c).1 :=
  levelLoopFuel_post (100 - l) l c (Nat.le_refl _)

theorem levelLoop_exit {l c : Nat} (h : ¬ (xpRequiredAt l ≤ c ∧ l < 100)) :
    levelLoop l c = (l, c) := by
  unfold levelLoop
  cases hf : 100 - l with
  | zero => rfl
  | succ f => rw [levelLoopFuel, if_neg h]

theorem levelLoop_step {l c : Nat} (h1 : xpRequiredAt l ≤ c) (h2 : l < 100) :
    levelLoop l c = levelLoop (l + 1) (c - xpRequiredAt l) := by
  unfold levelLoop
  have hf : 100 - l = (100 - (l + 1)) + 1 := by omega
  rw [hf, levelLoopFuel, if_pos ⟨h1, h2⟩]

theorem xpRequiredAt_1 : xpRequiredAt 1 = 100 := by
  norm_num [xpRequiredAt, Nat.sqrt]

theorem xpRequiredAt_2 : xpRequiredAt 2 = 282 := by
  norm_num [xpRequiredAt, Nat.sqrt]

theorem xpRequiredAt_3 : xpRequiredAt 3 = 519 := by
  norm_num [xpRequiredAt, Nat.sqrt]

theorem xpRequiredAt_4 : xpRequiredAt 4 = 800 := by
  norm_num [xpRequiredAt, Nat.sqrt]

theorem levelLoop_1_1000 : levelLoop 1 1000 = (4, 99) := by
  rw [levelLoop_step (by rw [xpRequiredAt_1]; omega) (by omega), xpRequiredAt_1]
  rw [levelLoop_step (by rw [xpRequiredAt_2]; omega) (by omega), xpRequiredAt_2]
  rw [levelLoop_step (by rw [xpRequiredAt_3]; omega) (by omega), xpRequiredAt_3]
  rw [levelLoop_exit (by rw [xpRequiredAt_4]; omega)]

theorem levelLoop_ge (f : Nat) : ∀ l c : Nat, l ≤ (levelLoopFuel f l c).1 := by
  induction f with
  | zero => intro l c; simp [levelLoopFuel]
  | succ f ih =>
    intro l c
    rw [levelLoopFuel]
    by_cases h : xpRequiredAt l ≤ c ∧ l < 100
    · rw [if_pos h]
      exact Nat.le_trans (Nat.le_succ l) (ih (l + 1) (c - xpRequiredAt l))
    · rw [if_neg h]

/-! ## Lemmas: the session XP ledger -/

section LedgerLemmas

variable {α : Type}

theorem entryGet_isSome_of_mem {m : List (String × α)} {k : String}
    (h : k ∈ m.map Prod.fst) : ∃ v, entryGet m k = some v := by
  induction m with
  | nil => exact absurd h (by simp)
  | cons p t ih =>
    rw [entryGet_cons]
    by_cases hp : p.1 = k
    · exact ⟨p.2, by rw [if_pos hp]⟩
    · rcases List.mem_map.mp h with ⟨q, hq, hqe⟩
      rcases List.mem_cons.mp hq with hq | hq
      · exact absurd (by rw [hq] at hqe; exact hqe) hp
      · rcases ih (List.mem_map.mpr ⟨q, hq, hqe⟩) with ⟨v, hv⟩
        exact ⟨v, by rw [if_neg hp, hv]⟩

theorem mem_keys_entrySet_self (m : List (String × α)) (k : String) (v : α) :
    k ∈ (entrySet m k v).map Prod.fst :=
  List.mem_map.mpr ⟨(k, v), mem_of_entryGet (entryGet_entrySet_self m k v), rfl⟩

theorem mem_keys_entrySet_mono {m : List (String × α)} {k1 : String}
    (k : String) (v : α) (h : k1 ∈ m.map Prod.fst) :
    k1 ∈ (entrySet m k v).map Prod.fst := by
  by_cases hk : k ∈ m.map Prod.fst
  · rw [keys_entrySet_of_mem v hk]
    exact h
  · rw [entrySet_of_not_mem v hk, List.map_append]
    exact List.mem_append_left _ h

end LedgerLemmas

theorem objGet_objSet_self (m : List (String × Int)) (k : String) (v : Int) :
    objGet (objSet m k v) k = v := by
  unfold objGet objSet
  rw [entryGet_entrySet_self]
  rfl

theorem objGet_objSet_ne {k k1 : String} (m : List (String × Int)) (v1 : Int)
    (h : k ≠ k1) : objGet (objSet m k1 v1) k = objGet m k := by
  unfold objGet objSet
  rw [entryGet_entrySet_ne m v1 h]

theorem objGet_objDelete_ne {k k1 : String} (m : List (String × Int))
    (h : k ≠ k1) : objGet (objDelete m k1) k = objGet m k := by
  unfold objGet objDelete
  rw [entryGet_entryDelete_ne m h]

theorem objDelete_objSet_ne {k k1 : String} (m : List (String × Int)) (v1 : Int)
    (hne : k ≠ k1) : objDelete (objSet m k1 v1) k = objSet (objDelete m k) k1 v1 :=
  entryDelete_entrySet_ne m v1 hne

theorem objSet_objSet_ne {k k1 : String} (m : List (String × Int)) (v v1 : Int)
    (hne : k ≠ k1) (hk : k ∈ m.map Prod.fst) :
    objSet (objSet m k1 v1) k v = objSet (objSet m k v) k1 v1 :=
  entrySet_entrySet_ne m v v1 hne hk

theorem ledgerSubEntry_ledgerAddEntry_ne (m : List (String × Int))
    {k k1 : String} (x x1 : Nat) (hne : k ≠ k1) (hk : k ∈ m.map Prod.fst) :
    ledgerSubEntry (ledgerAddEntry m k1 x1) k x
      = ledgerAddEntry (ledgerSubEntry m k x) k1 x1 := by
  unfold ledgerAddEntry ledgerSubEntry
  simp only [objGet_objSet_ne m _ hne]
  by_cases hv : objGet m k - (x : Int) ≤ 0
  · rw [if_pos hv, objDelete_objSet_ne m _ hne]
    simp only [if_pos hv]
    rw [objGet_objDelete_ne m (Ne.symm hne)]
  · rw [if_neg hv, objSet_objSet_ne m _ _ hne hk]
    simp only [if_neg hv]
    rw [objGet_objSet_ne m _ (Ne.symm hne)]

theorem ledgerSubEntry_ledgerAdd_comm {k : String} (x : Nat)
    (t : List (String × Nat)) :
    ∀ m : List (String × Int), k ∉ t.map Prod.fst → k ∈ m.map Prod.fst →
    ledgerSubEntry (ledgerAdd m t) k x = ledgerAdd (ledgerSubEntry m k x) t := by
  induction t with
  | nil => intro m _ _; rfl
  | cons q t ih =>
    intro m hkt hk
    have hne : k ≠ q.1 := by
      intro hc
      exact hkt (List.mem_map.mpr ⟨q, List.mem_cons_self q t, hc.symm⟩)
    have hkt2 : k ∉ t.map Prod.fst := by
      intro hc
      rcases List.mem_map.mp hc with ⟨r, hr, hre⟩
      exact hkt (List.mem_map.mpr ⟨r, List.mem_cons_of_mem q hr, hre⟩)
    show ledgerSubEntry (ledgerAdd (ledgerAddEntry m q.1 q.2) t) k x = _
    rw [ih (ledgerAddEntry m q.1 q.2) hkt2
      (mem_keys_entrySet_mono q.1 _ hk)]
    rw [ledgerSubEntry_ledgerAddEntry_ne m x q.2 hne hk]
    rfl

theorem ledgerSubEntry_ledgerAddEntry_self {m : List (String × Int)}
    {k : String} (x : Nat) (hnd : (m.map Prod.fst).Nodup)
    (hpos : ∀ p ∈ m, 0 < p.2) :
    ledgerSubEntry (ledgerAddEntry m k x) k x = m := by
  unfold ledgerAddEntry ledgerSubEntry
  by_cases hk : k ∈ m.map Prod.fst
  · rcases entryGet_isSome_of_mem hk with ⟨v0, hv0⟩
    have hget : objGet m k = v0 := by unfold objGet; rw [hv0]; rfl
    have hv0pos : 0 < v0 := hpos (k, v0) (mem_of_entryGet hv0)
    rw [hget, objGet_objSet_self]
    have hsub : v0 + (x : Int) - (x : Int) = v0 := by ring
    rw [hsub, if_neg (by omega)]
    unfold objSet
    rw [entrySet_entrySet_self, entrySet_entryGet_self hnd (hget ▸ hv0)]
  · have hget : objGet m k = 0 := by
      unfold objGet
      rw [entryGet_eq_none_of_not_mem hk]
      rfl
    rw [hget, objGet_objSet_self]
    have hsub : (0 : Int) + (x : Int) - (x : Int) = 0 := by ring
    rw [hsub, if_pos (by omega)]
    unfold objSet objDelete
    rw [entrySet_of_not_mem _ hk]
    unfold entryDelete
    rw [List.filter_append]
    rw [show (List.filter (fun p => !(p.1 == k)) m) = entryDelete m k from rfl,
      entryDelete_of_not_mem hk]
    simp

theorem ledgerSub_ledgerAdd (rewards : List (String × Nat)) :
    ∀ m : List (String × Int), (m.map Prod.fst).Nodup →
    (rewards.map Prod.fst).Nodup → (∀ p ∈ m, 0 < p.2) →
    ledgerSub (ledgerAdd m rewards) rewards = m := by
  induction rewards with
  | nil => intro m _ _ _; rfl
  | cons q t ih =>
    intro m hnd hrnd hpos
    have hkt : q.1 ∉ t.map Prod.fst := by
      rw [List.map_cons] at hrnd
      exact (List.nodup_cons.mp hrnd).1
    have htnd : (t.map Prod.fst).Nodup := by
      rw [List.map_cons] at hrnd
      exact (List.nodup_cons.mp hrnd).2
    show ledgerSub (ledgerAdd (ledgerAddEntry m q.1 q.2) t) (q :: t) = m
    have hstep : ledgerSub (ledgerAdd (ledgerAddEntry m q.1 q.2) t) (q :: t)
        = ledgerSub (ledgerSubEntry (ledgerAdd (ledgerAddEntry m q.1 q.2) t) q.1 q.2) t := rfl
    rw [hstep,
      ledgerSubEntry_ledgerAdd_comm q.2 t (ledgerAddEntry m q.1 q.2) hkt
        (mem_keys_entrySet_self m q.1 _),
      ledgerSubEntry_ledgerAddEntry_self q.2 hnd hpos]
    exact ih m hnd htnd hpos

theorem pos_ledgerSubEntry {m : List (String × Int)} {k : String} {x : Nat}
    (hpos : ∀ p ∈ m, 0 < p.2) : ∀ p ∈ ledgerSubEntry m k x, 0 < p.2 := by
  unfold ledgerSubEntry
  by_cases hv : objGet m k - (x : Int) ≤ 0
  · rw [if_pos hv]
    intro p hp
    exact hpos p (mem_entryDelete_sub hp)
  · rw [if_neg hv]
    intro p hp
    rcases mem_entrySet hp with hp | hp
    · exact hpos p hp
    · rw [hp]
      omega

theorem pos_ledgerSub (rewards : List (String × Nat)) :
    ∀ m : List (String × Int), (∀ p ∈ m, 0 < p.2) →
    ∀ p ∈ ledgerSub m rewards, 0 < p.2 := by
  induction rewards with
  | nil => intro m hpos; exact hpos
  | cons q t ih =>
    intro m hpos
    exact ih (ledgerSubEntry m q.1 q.2) (pos_ledgerSubEntry hpos)

/-! ## Lemmas: RoutineSession -/

theorem start_xpEarned (s : RoutineSession) (now : Nat) :
    (s.start now).xpEarned = s.xpEarned := by
  unfold RoutineSession.start
  split <;> rfl

theorem start_completedItems (s : RoutineSession) (now : Nat) :
    (s.start now).completedItems = s.completedItems := by
  unfold RoutineSession.start
  split <;> rfl

theorem completeItem_of_mem {s : RoutineSession} {itemId : String}
    (skillRewards : Option (List (String × Nat))) (now : Nat)
    (h : itemId ∈ s.completedItems) :
    s.completeItem itemId skillRewards now = s := by
  unfold RoutineSession.completeItem
  rw [if_pos h]

theorem completeItem_xpEarned {s : RoutineSession} {itemId : String}
    (rewards : List (String × Nat)) (now : Nat)
    (h : itemId ∉ s.completedItems) :
    (s.completeItem itemId (some rewards) now).xpEarned
      = ledgerAdd s.xpEarned rewards := by
  unfold RoutineSession.completeItem
  rw [if_neg h]
  simp only
  split
  · rw [start_xpEarned]
  · rfl

theorem completeItem_completedItems {s : RoutineSession} {itemId : String}
    (skillRewards : Option (List (String × Nat))) (now : Nat)
    (h : itemId ∉ s.completedItems) :
    (s.completeItem itemId skillRewards now).completedItems
      = s.completedItems ++ [itemId] := by
  unfold RoutineSession.completeItem
  rw [if_neg h]
  cases skillRewards with
  | none =>
    simp only
    split
    · rw [start_completedItems]
    · rfl
  | some rewards =>
    simp only
    split
    · rw [start_completedItems]
    · rfl

theorem uncompleteItem_of_not_mem {s : RoutineSession} {itemId : String}
    (skillRewards : Option (List (String × Nat)))
    (h : itemId ∉ s.completedItems) :
    s.uncompleteItem itemId skillRewards = s := by
  unfold RoutineSession.uncompleteItem
  rw [if_neg h]

theorem uncompleteItem_xpEarned {s : RoutineSession} {itemId : String}
    (rewards : List (String × Nat)) (h : itemId ∈ s.completedItems) :
    (s.uncompleteItem itemId (some rewards)).xpEarned
      = ledgerSub s.xpEarned rewards := by
  unfold RoutineSession.uncompleteItem
  rw [if_pos h]

/-! ## Lemmas: User operations -/

theorem updateStreak_stats (u : User) (t : Nat) :
    (u.updateStreak t).stats = u.stats := rfl

theorem updateStreak_skills (u : User) (t : Nat) :
    (u.updateStreak t).skills = u.skills := rfl

theorem addXP_prestige (s : Skill) (xp : Nat) (b : ℚ) :
    (s.addXP xp b).1.prestige = s.prestige := rfl

theorem addSkillXP_mono (u : User) (c : String) (x : Nat) (n : Nat) :
    u.stats.totalRoutinesCompleted
        ≤ (u.addSkillXP c x n).1.stats.totalRoutinesCompleted ∧
    u.stats.totalTasksCompleted
        ≤ (u.addSkillXP c x n).1.stats.totalTasksCompleted ∧
    u.stats.totalXPEarned ≤ (u.addSkillXP c x n).1.stats.totalXPEarned ∧
    (∀ k, prestigeAt u k ≤ prestigeAt (u.addSkillXP c x n).1 k) ∧
    (u.addSkillXP c x n).1.skills.map Prod.fst = u.skills.map Prod.fst := by
  unfold User.addSkillXP
  cases hget : getSkillEntry u.skills c with
  | none => exact ⟨Nat.le_refl _, Nat.le_refl _, Nat.le_refl _,
      fun k => Nat.le_refl _, rfl⟩
  | some sk =>
    have hc : c ∈ u.skills.map Prod.fst :=
      List.mem_map.mpr ⟨(c, sk), mem_of_entryGet hget, rfl⟩
    refine ⟨Nat.le_refl _, Nat.le_refl _, Nat.le_add_right _ _, ?_, ?_⟩
    · intro k
      show prestigeAt u k ≤
        ((entryGet (entrySet u.skills c (sk.addXP x u.getStreakBonus).1) k).map
          Skill.prestige).getD 0
      by_cases hkc : k = c
      · subst hkc
        have hget2 : entryGet u.skills k = some sk := hget
        unfold prestigeAt
        rw [entryGet_entrySet_self, hget2]
        simp [addXP_prestige]
      · rw [entryGet_entrySet_ne u.skills _ hkc]
        exact Nat.le_refl _
    · show (entrySet u.skills c (sk.addXP x u.getStreakBonus).1).map Prod.fst = _
      exact keys_entrySet_of_mem _ hc

theorem applyRewardsUser_mono (t : List (String × Nat)) (n : Nat) :
    ∀ u : User,
    u.stats.totalRoutinesCompleted
        ≤ (applyRewardsUser u t n).stats.totalRoutinesCompleted ∧
    u.stats.totalTasksCompleted
        ≤ (applyRewardsUser u t n).stats.totalTasksCompleted ∧
    u.stats.totalXPEarned ≤ (applyRewardsUser u t n).stats.totalXPEarned ∧
    (∀ k, prestigeAt u k ≤ prestigeAt (applyRewardsUser u t n) k) ∧
    (applyRewardsUser u t n).skills.map Prod.fst = u.skills.map Prod.fst := by
  induction t with
  | nil =>
    intro u
    exact ⟨Nat.le_refl _, Nat.le_refl _, Nat.le_refl _, fun k => Nat.le_refl _, rfl⟩
  | cons q t ih =>
    intro u
    have hstep := addSkillXP_mono u q.1 q.2 n
    have hrest := ih (u.addSkillXP q.1 q.2 n).1
    have hunf : applyRewardsUser u (q :: t) n
        = applyRewardsUser (u.addSkillXP q.1 q.2 n).1 t n := by
      unfold applyRewardsUser
      rw [List.foldl_cons]
    rw [hunf]
    refine ⟨Nat.le_trans hstep.1 hrest.1,
      Nat.le_trans hstep.2.1 hrest.2.1,
      Nat.le_trans hstep.2.2.1 hrest.2.2.1,
      fun k => Nat.le_trans (hstep.2.2.2.1 k) (hrest.2.2.2.1 k),
      by rw [hrest.2.2.2.2, hstep.2.2.2.2]⟩

theorem addRoutineRewards_fst (t : List (String × Nat)) (n : Nat) :
    ∀ (v : User) (l : List SkillXPResult),
    (t.foldl (fun acc kv =>
        match acc.1.addSkillXP kv.1 kv.2 n with
        | (u2, some r) => (u2, acc.2 ++ [r])
        | (u2, none) => (u2, acc.2)) (v, l)).1
      = applyRewardsUser v t n := by
  induction t with
  | nil => intro v l; rfl
  | cons q t ih =>
    intro v l
    rw [List.foldl_cons]
    cases h : v.addSkillXP q.1 q.2 n with
    | mk u2 opt =>
      have hfold : applyRewardsUser v (q :: t) n = applyRewardsUser u2 t n := by
        unfold applyRewardsUser
        rw [List.foldl_cons, h]
      rw [hfold]
      cases opt with
      | some r =>
        simp only [h]
        exact ih u2 (l ++ [r])
      | none =>
        simp only [h]
        exact ih u2 l

theorem addRoutineRewards_eq_applyRewardsUser (u : User)
    (rewards : List (String × Nat)) (n : Nat) :
    (u.addRoutineRewards rewards n).1 = applyRewardsUser u rewards n :=
  addRoutineRewards_fst rewards n u []

theorem addRoutineRewards_mono (rewards : List (String × Nat)) (u : User) (n : Nat) :
    u.stats.totalRoutinesCompleted
        ≤ (u.addRoutineRewards rewards n).1.stats.totalRoutinesCompleted ∧
    u.stats.totalTasksCompleted
        ≤ (u.addRoutineRewards rewards n).1.stats.totalTasksCompleted ∧
    u.stats.totalXPEarned ≤ (u.addRoutineRewards rewards n).1.stats.totalXPEarned ∧
    (∀ k, prestigeAt u k ≤ prestigeAt (u.addRoutineRewards rewards n).1 k) ∧
    (u.addRoutineRewards rewards n).1.skills.map Prod.fst
      = u.skills.map Prod.fst := by
  rw [addRoutineRewards_eq_applyRewardsUser]
  exact applyRewardsUser_mono rewards n u

theorem prestigeSkill_mono (u : User) (c : String) :
    u.stats = (u.prestigeSkill c).stats ∧
    (∀ k, prestigeAt u k ≤ prestigeAt (u.prestigeSkill c) k) ∧
    (u.prestigeSkill c).skills.map Prod.fst = u.skills.map Prod.fst := by
  unfold User.prestigeSkill
  cases hget : getSkillEntry u.skills c with
  | none => exact ⟨rfl, fun k => Nat.le_refl _, rfl⟩
  | some sk =>
    dsimp only
    by_cases hlt : sk.level < 100
    · rw [if_pos hlt]
      exact ⟨rfl, fun k => Nat.le_refl _, rfl⟩
    · rw [if_neg hlt]
      have hop : sk.prestigeOp = .ok
          ({ sk with level := 1, currentXP := 0, prestige := sk.prestige + 1 },
           { prestigeLevel := sk.prestige + 1,
             multiplier := 1 + ((sk.prestige + 1 : Nat) : ℚ) * (5 / 100) }) := by
        unfold Skill.prestigeOp
        rw [if_neg hlt]
        rfl
      rw [hop]
      have hc : c ∈ u.skills.map Prod.fst :=
        List.mem_map.mpr ⟨(c, sk), mem_of_entryGet hget, rfl⟩
      refine ⟨rfl, ?_, ?_⟩
      · intro k
        show prestigeAt u k ≤
          ((entryGet (entrySet u.skills c _) k).map Skill.prestige).getD 0
        by_cases hkc : k = c
        · subst hkc
          have hget2 : entryGet u.skills k = some sk := hget
          unfold prestigeAt
          rw [entryGet_entrySet_self, hget2]
          simp
        · rw [entryGet_entrySet_ne u.skills _ hkc]
          exact Nat.le_refl _
      · show (entrySet u.skills c _).map Prod.fst = _
        exact keys_entrySet_of_mem _ hc

theorem apply_mono (op : UserOp) (u : User) :
    u.stats.totalRoutinesCompleted ≤ (op.apply u).stats.totalRoutinesCompleted ∧
    u.stats.totalTasksCompleted ≤ (op.apply u).stats.totalTasksCompleted ∧
    u.stats.totalXPEarned ≤ (op.apply u).stats.totalXPEarned ∧
    (∀ k, prestigeAt u k ≤ prestigeAt (op.apply u) k) ∧
    (op.apply u).skills.map Prod.fst = u.skills.map Prod.fst := by
  cases op with
  | addSkillXP c x n => exact addSkillXP_mono u c x n
  | addRoutineRewards rewards n => exact addRoutineRewards_mono rewards u n
  | completeTask n =>
    exact ⟨Nat.le_refl _, Nat.le_succ _, Nat.le_refl _, fun k => Nat.le_refl _, rfl⟩
  | completeRoutine n =>
    exact ⟨Nat.le_succ _, Nat.le_refl _, Nat.le_refl _, fun k => Nat.le_refl _, rfl⟩
  | updateStreak t =>
    exact ⟨Nat.le_refl _, Nat.le_refl _, Nat.le_refl _, fun k => Nat.le_refl _, rfl⟩
  | unlockAchievement i =>
    dsimp only [UserOp.apply]
    unfold User.unlockAchievement
    split
    · exact ⟨Nat.le_refl _, Nat.le_refl _, Nat.le_refl _, fun k => Nat.le_refl _, rfl⟩
    · exact ⟨Nat.le_refl _, Nat.le_refl _, Nat.le_refl _, fun k => Nat.le_refl _, rfl⟩
  | prestigeSkill c =>
    have h := prestigeSkill_mono u c
    exact ⟨h.1 ▸ Nat.le_refl _, h.1 ▸ Nat.le_refl _, h.1 ▸ Nat.le_refl _,
      h.2.1, h.2.2⟩

theorem applyOps_mono (ops : List UserOp) :
    ∀ u : User,
    u.stats.totalRoutinesCompleted ≤ (applyOps ops u).stats.totalRoutinesCompleted ∧
    u.stats.totalTasksCompleted ≤ (applyOps ops u).stats.totalTasksCompleted ∧
    u.stats.totalXPEarned ≤ (applyOps ops u).stats.totalXPEarned ∧
    (∀ k, prestigeAt u k ≤ prestigeAt (applyOps ops u) k) ∧
    (applyOps ops u).skills.map Prod.fst = u.skills.map Prod.fst := by
  induction ops with
  | nil =>
    intro u
    exact ⟨Nat.le_refl _, Nat.le_refl _, Nat.le_refl _, fun k => Nat.le_refl _, rfl⟩
  | cons op ops ih =>
    intro u
    have hstep := apply_mono op u
    have hrest := ih (op.apply u)
    have hunf : applyOps (op :: ops) u = applyOps ops (op.apply u) := by
      unfold applyOps
      rw [List.foldl_cons]
    rw [hunf]
    exact ⟨Nat.le_trans hstep.1 hrest.1,
      Nat.le_trans hstep.2.1 hrest.2.1,
      Nat.le_trans hstep.2.2.1 hrest.2.2.1,
      fun k => Nat.le_trans (hstep.2.2.2.1 k) (hrest.2.2.2.1 k),
      by rw [hrest.2.2.2.2, hstep.2.2.2.2]⟩

/-! ## Lemmas: addXP unfolding and the cascade scenario -/

theorem addXP_level (s : Skill) (xp : Nat) (b : ℚ) :
    (s.addXP xp b).1.level
      = (levelLoop s.level
          (s.currentXP +
            (⌊(xp : ℚ) * (s.getPrestigeMultiplier * (1 + b))⌋).toNat)).1 := rfl

theorem addXP_currentXP (s : Skill) (xp : Nat) (b : ℚ) :
    (s.addXP xp b).1.currentXP
      = (levelLoop s.level
          (s.currentXP +
            (⌊(xp : ℚ) * (s.getPrestigeMultiplier * (1 + b))⌋).toNat)).2 := rfl

theorem sampleLogic_addXP_1000_level :
    (sampleLogicSkill.addXP 1000 0).1.level = 4 := by
  rw [addXP_level]
  have hadj : (⌊((1000 : Nat) : ℚ) *
      (sampleLogicSkill.getPrestigeMultiplier * (1 + 0))⌋).toNat = 1000 := by
    have h1 : (⌊((1000 : Nat) : ℚ) *
        (sampleLogicSkill.getPrestigeMultiplier * (1 + 0))⌋) = 1000 := by
      norm_num [Skill.getPrestigeMultiplier, sampleLogicSkill, Skill.init]
    rw [h1]
    rfl
  rw [hadj]
  have hcur : sampleLogicSkill.currentXP = 0 := rfl
  have hlev : sampleLogicSkill.level = 1 := rfl
  rw [hcur, hlev]
  norm_num [levelLoop_1_1000]

theorem sampleLogic_addXP_0_level :
    (sampleLogicSkill.addXP 0 0).1.level = 1 := by
  rw [addXP_level]
  have hadj : (⌊((0 : Nat) : ℚ) *
      (sampleLogicSkill.getPrestigeMultiplier * (1 + 0))⌋).toNat = 0 := by
    have h1 : (⌊((0 : Nat) : ℚ) *
        (sampleLogicSkill.getPrestigeMultiplier * (1 + 0))⌋) = 0 := by
      norm_num
    rw [h1]
    rfl
  rw [hadj]
  have hcur : sampleLogicSkill.currentXP = 0 := rfl
  have hlev : sampleLogicSkill.level = 1 := rfl
  rw [hcur, hlev]
  rw [levelLoop_exit (by rw [xpRequiredAt_1]; omega)]

/-! ## Lemmas: manager completion frame -/

theorem complete_of_completed {s : RoutineSession} (now : Nat)
    (h : s.status = .completed) : s.complete now = s := by
  unfold RoutineSession.complete
  rw [if_neg (by rw [h]; exact fun hc => hc rfl)]

theorem addSkillXP_stats_frame (u : User) (c : String) (x : Nat) (n : Nat) :
    (u.addSkillXP c x n).1.stats.totalRoutinesCompleted
        = u.stats.totalRoutinesCompleted ∧
    (u.addSkillXP c x n).1.stats.totalTasksCompleted
        = u.stats.totalTasksCompleted := by
  unfold User.addSkillXP
  cases hget : getSkillEntry u.skills c with
  | none => exact ⟨rfl, rfl⟩
  | some sk => exact ⟨rfl, rfl⟩

theorem applyRewardsUser_stats_frame (t : List (String × Nat)) (n : Nat) :
    ∀ u : User,
    (applyRewardsUser u t n).stats.totalRoutinesCompleted
        = u.stats.totalRoutinesCompleted ∧
    (applyRewardsUser u t n).stats.totalTasksCompleted
        = u.stats.totalTasksCompleted := by
  induction t with
  | nil => intro u; exact ⟨rfl, rfl⟩
  | cons q t ih =>
    intro u
    have hunf : applyRewardsUser u (q :: t) n
        = applyRewardsUser (u.addSkillXP q.1 q.2 n).1 t n := by
      unfold applyRewardsUser
      rw [List.foldl_cons]
    rw [hunf]
    have hstep := addSkillXP_stats_frame u q.1 q.2 n
    have hrest := ih (u.addSkillXP q.1 q.2 n).1
    exact ⟨hrest.1.trans hstep.1, hrest.2.trans hstep.2⟩

theorem addRoutineRewards_stats_frame (u : User) (t : List (String × Nat)) (n : Nat) :
    (u.addRoutineRewards t n).1.stats.totalRoutinesCompleted
        = u.stats.totalRoutinesCompleted ∧
    (u.addRoutineRewards t n).1.stats.totalTasksCompleted
        = u.stats.totalTasksCompleted := by
  rw [addRoutineRewards_eq_applyRewardsUser]
  exact applyRewardsUser_stats_frame t n u

/-! ## Lemmas: achievement checking -/

namespace AchievementManager

theorem check_ids (u : User) (t : Nat) :
    ∀ catalog : List Achievement,
    (checkAchievements catalog u t).1.map Achievement.id
      = catalog.map Achievement.id := by
  intro catalog
  induction catalog generalizing u with
  | nil => rfl
  | cons a rest ih =>
    rw [checkAchievements]
    by_cases ha : a.unlockedAt.isSome
    · rw [if_pos ha]
      simp only [List.map_cons]
      rw [ih u]
    · rw [if_neg ha]
      by_cases hc : a.condition u
      · rw [if_pos hc]
        simp only [List.map_cons]
        rw [ih ((u.unlockAchievement a.id).1)]
      · rw [if_neg hc]
        simp only [List.map_cons]
        rw [ih u]

theorem check_preserves_unlocked {id : String} (u : User) (t : Nat) :
    ∀ catalog : List Achievement, unlockedIn catalog id →
    unlockedIn (checkAchievements catalog u t).1 id := by
  intro catalog
  induction catalog generalizing u with
  | nil => intro h; exact h
  | cons a rest ih =>
    rintro ⟨b, hb, hbid, hbsome⟩
    rw [checkAchievements]
    by_cases ha : a.unlockedAt.isSome
    · rw [if_pos ha]
      rcases List.mem_cons.mp hb with hb | hb
      · exact ⟨a, List.mem_cons_self _ _, hb ▸ hbid, ha⟩
      · rcases ih u ⟨b, hb, hbid, hbsome⟩ with ⟨c, hc, hcid, hcsome⟩
        exact ⟨c, List.mem_cons_of_mem _ hc, hcid, hcsome⟩
    · rw [if_neg ha]
      rcases List.mem_cons.mp hb with hb | hb
      · exact absurd (hb ▸ hbsome) ha
      · by_cases hc : a.condition u
        · rw [if_pos hc]
          rcases ih ((u.unlockAchievement a.id).1) ⟨b, hb, hbid, hbsome⟩ with
            ⟨c, hcm, hcid, hcsome⟩
          exact ⟨c, List.mem_cons_of_mem _ hcm, hcid, hcsome⟩
        · rw [if_neg hc]
          rcases ih u ⟨b, hb, hbid, hbsome⟩ with ⟨c, hcm, hcid, hcsome⟩
          exact ⟨c, List.mem_cons_of_mem _ hcm, hcid, hcsome⟩

theorem check_newly_unlocked {id : String} (u : User) (t : Nat) :
    ∀ catalog : List Achievement, id ∈ (checkAchievements catalog u t).2.2 →
    unlockedIn (checkAchievements catalog u t).1 id := by
  intro catalog
  induction catalog generalizing u with
  | nil => intro h; exact absurd h (by simp [checkAchievements])
  | cons a rest ih =>
    rw [checkAchievements]
    by_cases ha : a.unlockedAt.isSome
    · rw [if_pos ha]
      intro h
      rcases ih u h with ⟨c, hcm, hcid, hcsome⟩
      exact ⟨c, List.mem_cons_of_mem _ hcm, hcid, hcsome⟩
    · rw [if_neg ha]
      by_cases hc : a.condition u
      · rw [if_pos hc]
        intro h
        rcases List.mem_cons.mp h with h | h
        · exact ⟨{ a with unlockedAt := some t }, List.mem_cons_self _ _, h.symm, rfl⟩
        · rcases ih ((u.unlockAchievement a.id).1) h with ⟨c, hcm, hcid, hcsome⟩
          exact ⟨c, List.mem_cons_of_mem _ hcm, hcid, hcsome⟩
      · rw [if_neg hc]
        intro h
        rcases ih u h with ⟨c, hcm, hcid, hcsome⟩
        exact ⟨c, List.mem_cons_of_mem _ hcm, hcid, hcsome⟩

theorem check_newly_sub {id : String} (u : User) (t : Nat) :
    ∀ catalog : List Achievement, id ∈ (checkAchievements catalog u t).2.2 →
    id ∈ catalog.map Achievement.id := by
  intro catalog
  induction catalog generalizing u with
  | nil => intro h; exact absurd h (by simp [checkAchievements])
  | cons a rest ih =>
    rw [checkAchievements]
    by_cases ha : a.unlockedAt.isSome
    · rw [if_pos ha]
      intro h
      exact List.mem_cons_of_mem _ (ih u h)
    · rw [if_neg ha]
      by_cases hc : a.condition u
      · rw [if_pos hc]
        intro h
        rcases List.mem_cons.mp h with h | h
        · exact List.mem_cons.mpr (Or.inl h)
        · exact List.mem_cons_of_mem _ (ih ((u.unlockAchievement a.id).1) h)
      · rw [if_neg hc]
        intro h
        exact List.mem_cons_of_mem _ (ih u h)

theorem unlocked_not_newly {id : String} (u : User) (t : Nat) :
    ∀ catalog : List Achievement, (catalog.map Achievement.id).Nodup →
    unlockedIn catalog id → id ∉ (checkAchievements catalog u t).2.2 := by
  intro catalog
  induction catalog generalizing u with
  | nil => intro _ _ h; exact absurd h (by simp [checkAchievements])
  | cons a rest ih =>
    rintro hnd ⟨b, hb, hbid, hbsome⟩
    rw [List.map_cons] at hnd
    have hnd2 := List.nodup_cons.mp hnd
    rw [checkAchievements]
    rcases List.mem_cons.mp hb with hb | hb
    · subst hb
      rw [if_pos hbsome]
      intro h
      have hin : id ∈ rest.map Achievement.id := check_newly_sub u t rest h
      exact hnd2.1 (hbid ▸ hin)
    · have hbrest : id ∈ rest.map Achievement.id :=
        List.mem_map.mpr ⟨b, hb, hbid⟩
      have hane : a.id ≠ id := fun hc => hnd2.1 (hc ▸ hbrest)
      by_cases ha : a.unlockedAt.isSome
      · rw [if_pos ha]
        exact ih u hnd2.2 ⟨b, hb, hbid, hbsome⟩
      · rw [if_neg ha]
        by_cases hc : a.condition u
        · rw [if_pos hc]
          intro h
          rcases List.mem_cons.mp h with h | h
          · exact hane h.symm
          · exact ih ((u.unlockAchievement a.id).1) hnd2.2 ⟨b, hb, hbid, hbsome⟩ h
        · rw [if_neg hc]
          exact ih u hnd2.2 ⟨b, hb, hbid, hbsome⟩

theorem runChecks_preserves_unlocked {id : String} :
    ∀ (calls : List (User × Nat)) (catalog : List Achievement),
    unlockedIn catalog id → unlockedIn (runChecks catalog calls) id := by
  intro calls
  induction calls with
  | nil => intro catalog h; exact h
  | cons c rest ih =>
    intro catalog h
    exact ih _ (check_preserves_unlocked c.1 c.2 catalog h)

theorem runChecks_ids :
    ∀ (calls : List (User × Nat)) (catalog : List Achievement),
    (runChecks catalog calls).map Achievement.id = catalog.map Achievement.id := by
  intro calls
  induction calls with
  | nil => intro catalog; rfl
  | cons c rest ih =>
    intro catalog
    rw [show runChecks catalog (c :: rest)
        = runChecks (checkAchievements catalog c.1 c.2).1 rest from rfl,
      ih _, check_ids c.1 c.2 catalog]

end AchievementManager

/-! ## Claim theorems -/

/-- C1: the prestige operation of a Skill fails with the invalid-state error
whenever the level is below 100; at level 100 it succeeds, and afterwards the
level is 1, the current XP is 0, the prestige count is incremented by exactly
one, the lifetime total XP is unchanged, and the returned record carries the
new prestige count and the new multiplier `1 + 0.05 * prestige`. -/
theorem prestige_method_contract (s : Skill) :
    (s.level < 100 → s.prestigeOp = .error "Must be level 100 to prestige") ∧
    (s.level = 100 →
      ∃ s2 r, s.prestigeOp = .ok (s2, r) ∧
        s2.level = 1 ∧ s2.currentXP = 0 ∧ s2.prestige = s.prestige + 1 ∧
        s2.totalXP = s.totalXP ∧
        r.prestigeLevel = s.prestige + 1 ∧
        r.multiplier = 1 + ((s.prestige : ℚ) + 1) * (5 / 100)) := by
  constructor
  · intro h
    unfold Skill.prestigeOp
    rw [if_pos h]
  · intro h
    have hnl : ¬ s.level < 100 := by omega
    unfold Skill.prestigeOp
    rw [if_neg hnl]
    refine ⟨_, _, rfl, rfl, rfl, rfl, rfl, rfl, ?_⟩
    show (1 : ℚ) + ((s.prestige + 1 : Nat) : ℚ) * (5 / 100) = _
    push_cast
    ring

/-- Closed witness for `prestige_method_contract` at concrete skills. -/
theorem prestige_method_contract_witness :
    (sampleSkill42.prestigeOp = .error "Must be level 100 to prestige") ∧
    (∃ s2 r, sampleSkill100.prestigeOp = .ok (s2, r) ∧
      s2.level = 1 ∧ s2.currentXP = 0 ∧ s2.prestige = sampleSkill100.prestige + 1 ∧
      s2.totalXP = sampleSkill100.totalXP ∧
      r.prestigeLevel = sampleSkill100.prestige + 1 ∧
      r.multiplier = 1 + ((sampleSkill100.prestige : ℚ) + 1) * (5 / 100)) :=
  ⟨(prestige_method_contract sampleSkill42).1 (by decide),
   (prestige_method_contract sampleSkill100).2 rfl⟩

/-- C2 counterexample: a level-1 skill with no XP, no prestige and no streak
bonus awarded 1000 raw XP ends at level 4, not at level 5 or above
(the requirements for levels 1-3 are 100, 282 and 519, consuming 901 XP, and
the remaining 99 falls short of the 800 required at level 4). -/
theorem addXP_cascade_counterexample :
    (sampleLogicSkill.addXP 1000 0).1.level = 4 ∧
    ¬ 5 ≤ (sampleLogicSkill.addXP 1000 0).1.level := by
  have h := sampleLogic_addXP_1000_level
  exact ⟨h, by omega⟩

/-- C2 (amended): after `Skill.addXP` with a non-negative bonus fraction the
invariant `currentXP < xpRequiredForNextLevel(level)` holds whenever
`level < 100`, and the cascade scenario of a fresh level-1 skill awarded
1000 raw XP reaches at least level 4 in a single call. -/
theorem addXP_invariant_and_cascade :
    (∀ (s : Skill) (xp : Nat) (b : ℚ), 0 ≤ b →
      (s.addXP xp b).1.level < 100 →
      (s.addXP xp b).1.currentXP < (s.addXP xp b).1.getXPForNextLevel) ∧
    4 ≤ (sampleLogicSkill.addXP 1000 0).1.level := by
  constructor
  · intro s xp b _hb h
    exact levelLoop_post s.level _ h
  · rw [sampleLogic_addXP_1000_level]

/-- Closed witness for `addXP_invariant_and_cascade`. -/
theorem addXP_invariant_and_cascade_witness :
    (sampleLogicSkill.addXP 0 0).1.currentXP
        < (sampleLogicSkill.addXP 0 0).1.getXPForNextLevel ∧
    4 ≤ (sampleLogicSkill.addXP 1000 0).1.level :=
  ⟨addXP_invariant_and_cascade.1 sampleLogicSkill 0 0 le_rfl
      (by rw [sampleLogic_addXP_0_level]; omega),
   addXP_invariant_and_cascade.2⟩

/-- C5: when the item id does not occur in the routine,
`RoutineManager.completeItem` reports a null result and leaves the session
and the user (skills and lifetime stats included) entirely unchanged; in
particular no XP is awarded. -/
theorem completeItem_unknown_item_no_mutation
    (routine : Routine) (session : RoutineSession) (user : User)
    (itemId : String) (now : Nat) (h : routine.getItem itemId = none) :
    RoutineManager.completeItem routine session user itemId now
      = (none, session, user) := by
  unfold RoutineManager.completeItem
  rw [h]

/-- Closed witness for `completeItem_unknown_item_no_mutation`. -/
theorem completeItem_unknown_item_no_mutation_witness :
    RoutineManager.completeItem sampleRoutine sampleFreshSession
        (User.init "Hunter" 0) "missing" 3
      = (none, sampleFreshSession, User.init "Hunter" 0) :=
  completeItem_unknown_item_no_mutation sampleRoutine sampleFreshSession
    (User.init "Hunter" 0) "missing" 3 (by decide)

/-- C6: `updateStreak` sets the streak to 1 on a first completion, leaves it
unchanged when the last completion was today, increments it when the last
completion was yesterday, resets it to 1 on a gap of two or more days, and
updates the longest streak to the maximum of its old value and the new
current value, so the longest streak never decreases. -/
theorem updateStreak_rules (u : User) (today : Nat) :
    (u.streak.lastCompleted = none →
      (u.updateStreak today).streak.current = 1) ∧
    (u.streak.lastCompleted = some today →
      (u.updateStreak today).streak.current = u.streak.current) ∧
    (∀ last, u.streak.lastCompleted = some last → last + 1 = today →
      (u.updateStreak today).streak.current = u.streak.current + 1) ∧
    (∀ last, u.streak.lastCompleted = some last → last + 2 ≤ today →
      (u.updateStreak today).streak.current = 1) ∧
    (u.updateStreak today).streak.longest
      = max u.streak.longest (u.updateStreak today).streak.current ∧
    u.streak.longest ≤ (u.updateStreak today).streak.longest := by
  refine ⟨?_, ?_, ?_, ?_, ?_, ?_⟩
  · intro h
    unfold User.updateStreak
    rw [h]
  · intro h
    unfold User.updateStreak
    rw [h]
    simp
  · intro last h hy
    unfold User.updateStreak
    rw [h]
    have h1 : ¬ last = today := by omega
    simp only [if_neg h1, if_pos hy]
  · intro last h hg
    unfold User.updateStreak
    rw [h]
    have h1 : ¬ last = today := by omega
    have h2 : ¬ last + 1 = today := by omega
    simp only [if_neg h1, if_neg h2]
  · unfold User.updateStreak
    cases u.streak.lastCompleted <;> rfl
  · unfold User.updateStreak
    cases u.streak.lastCompleted <;> exact Nat.le_max_left _ _

/-- Closed witness for `updateStreak_rules` covering all four cases. -/
theorem updateStreak_rules_witness :
    ((User.init "Hunter" 0).updateStreak 5).streak.current = 1 ∧
    (sampleStreakUser.updateStreak 10).streak.current = sampleStreakUser.streak.current ∧
    (sampleStreakUser.updateStreak 11).streak.current = sampleStreakUser.streak.current + 1 ∧
    (sampleStreakUser.updateStreak 13).streak.current = 1 ∧
    sampleStreakUser.streak.longest ≤ (sampleStreakUser.updateStreak 13).streak.longest :=
  ⟨(updateStreak_rules (User.init "Hunter" 0) 5).1 rfl,
   (updateStreak_rules sampleStreakUser 10).2.1 rfl,
   (updateStreak_rules sampleStreakUser 11).2.2.1 10 rfl (by decide),
   (updateStreak_rules sampleStreakUser 13).2.2.2.1 10 rfl (by decide),
   (updateStreak_rules sampleStreakUser 13).2.2.2.2.2⟩

/-- C7: the streak bonus returned by the ascending-table iteration equals
the bonus of the highest-threshold tier whose day count is at most the
current streak (0 when none qualifies); in particular a 7-day streak yields
0.10, not 0.05. -/
theorem streakBonus_highest_tier :
    (∀ u : User, u.getStreakBonus = specHighestSatisfiedTierBonus u.streak.current) ∧
    (∀ u : User, u.streak.current = 7 → u.getStreakBonus = 10 / 100) := by
  have hmain : ∀ u : User,
      u.getStreakBonus = specHighestSatisfiedTierBonus u.streak.current := by
    intro u
    unfold User.getStreakBonus STREAK_BONUSES specHighestSatisfiedTierBonus
    simp only [List.foldl_cons, List.foldl_nil]
  refine ⟨hmain, ?_⟩
  intro u h
  rw [hmain u, h]
  unfold specHighestSatisfiedTierBonus
  norm_num

/-- Closed witness for `streakBonus_highest_tier` at a 7-day streak. -/
theorem streakBonus_highest_tier_witness :
    sampleUser7.getStreakBonus = 10 / 100 :=
  streakBonus_highest_tier.2 sampleUser7 rfl

/-- C9: `uncompleteItem` mutates only the completed-item set and the XP
ledger: the status (no regression to `not_started`), the start and
completion timestamps, the routine id and the date are unchanged, both at
the session level and through the manager. -/
theorem uncompleteItem_frame_only :
    (∀ (s : RoutineSession) (itemId : String)
        (rewards : Option (List (String × Nat))),
      (s.uncompleteItem itemId rewards).status = s.status ∧
      (s.uncompleteItem itemId rewards).startedAt = s.startedAt ∧
      (s.uncompleteItem itemId rewards).completedAt = s.completedAt ∧
      (s.uncompleteItem itemId rewards).routineId = s.routineId ∧
      (s.uncompleteItem itemId rewards).date = s.date) ∧
    (∀ (routine : Routine) (s : RoutineSession) (itemId : String),
      (RoutineManager.uncompleteItem routine s itemId).2.status = s.status ∧
      (RoutineManager.uncompleteItem routine s itemId).2.startedAt = s.startedAt ∧
      (RoutineManager.uncompleteItem routine s itemId).2.completedAt = s.completedAt) := by
  have hses : ∀ (s : RoutineSession) (itemId : String)
      (rewards : Option (List (String × Nat))),
      (s.uncompleteItem itemId rewards).status = s.status ∧
      (s.uncompleteItem itemId rewards).startedAt = s.startedAt ∧
      (s.uncompleteItem itemId rewards).completedAt = s.completedAt ∧
      (s.uncompleteItem itemId rewards).routineId = s.routineId ∧
      (s.uncompleteItem itemId rewards).date = s.date := by
    intro s itemId rewards
    unfold RoutineSession.uncompleteItem
    by_cases h : itemId ∈ s.completedItems
    · rw [if_pos h]
      cases rewards with
      | none => exact ⟨rfl, rfl, rfl, rfl, rfl⟩
      | some rw2 => exact ⟨rfl, rfl, rfl, rfl, rfl⟩
    · rw [if_neg h]
      exact ⟨rfl, rfl, rfl, rfl, rfl⟩
  refine ⟨hses, ?_⟩
  intro routine s itemId
  unfold RoutineManager.uncompleteItem
  cases h : routine.getItem itemId with
  | none => exact ⟨rfl, rfl, rfl⟩
  | some item =>
    have hs := hses s itemId item.skillRewards
    exact ⟨hs.1, hs.2.1, hs.2.2.1⟩

/-- C4 counterexample: a persisted snapshot missing the `skills` field makes
`User.fromJSON` fail hard (the source evaluates `Object.entries(undefined)`,
which throws), so restoration is not failure-free for every snapshot with
missing fields. -/
theorem fromJSON_missing_skills_counterexample :
    User.fromJSON emptySnapshot 0
      = .error "TypeError: Object.entries called on undefined" := rfl

/-- C4 (amended): for every snapshot that does carry a skills object,
`User.fromJSON` succeeds, substituting the documented defaults for the
absent fields: an absent streak becomes `{current 0, longest 0, lastCompleted
null}`, absent stats become the zeroed stats record, and an absent username
falls back to the constructor default. -/
theorem fromJSON_field_defaults (data : UserData) (now : Nat)
    (h : data.skills.isSome = true) :
    ((User.fromJSON data now).toOption.isSome = true) ∧
    (data.streak = none →
      (User.fromJSON data now).toOption.map User.streak = some defaultStreak) ∧
    (data.stats = none →
      (User.fromJSON data now).toOption.map User.stats = some defaultStats) ∧
    (data.username = none →
      (User.fromJSON data now).toOption.map User.username = some "Hunter") := by
  cases hs : data.skills with
  | none => rw [hs] at h; exact absurd h (by simp)
  | some skillsData =>
    have hok : User.fromJSON data now = .ok
        (let u := User.init (data.username.getD "Hunter") now
         let u := { u with createdAt := data.createdAt, lastActive := data.lastActive }
         let restored := skillsData.foldl
           (fun sks (kv : String × SkillData) =>
             setSkillEntry sks kv.1 (Skill.fromJSON kv.2))
           u.skills
         let u := { u with skills := restored }
         { u with
            streak := data.streak.getD defaultStreak
            stats := data.stats.getD defaultStats }) := by
      unfold User.fromJSON
      rw [hs]
    rw [hok]
    refine ⟨rfl, ?_, ?_, ?_⟩
    · intro hstreak
      rw [hstreak]
      rfl
    · intro hstats
      rw [hstats]
      rfl
    · intro huser
      rw [huser]
      rfl

/-- Closed witness for `fromJSON_field_defaults` on a snapshot carrying only
an empty skills object. -/
theorem fromJSON_field_defaults_witness :
    ((User.fromJSON minimalSnapshot 0).toOption.isSome = true) ∧
    ((User.fromJSON minimalSnapshot 0).toOption.map User.streak
        = some defaultStreak) ∧
    ((User.fromJSON minimalSnapshot 0).toOption.map User.stats
        = some defaultStats) ∧
    ((User.fromJSON minimalSnapshot 0).toOption.map User.username
        = some "Hunter") := by
  have h := fromJSON_field_defaults minimalSnapshot 0 rfl
  exact ⟨h.1, h.2.1 rfl, h.2.2.1 rfl, h.2.2.2 rfl⟩

/-- C8 counterexample: for an item that is already completed,
`completeItem` is a no-op but `uncompleteItem` still removes the item and
subtracts the rewards, so the complete/uncomplete pair does not restore
`xpEarned` for every session and item id. -/
theorem xpEarned_roundtrip_counterexample :
    ¬ ((sampleMidSession.completeItem "a" (some [("physical", 5)]) 1).uncompleteItem
        "a" (some [("physical", 5)])).xpEarned = sampleMidSession.xpEarned := by
  decide

/-- C8 (amended): for an item id not yet completed, with the stored ledger
entries positive (as every reachable ledger is) and reward keys distinct,
`uncompleteItem` right after `completeItem` with the same rewards restores
`xpEarned` exactly; and `uncompleteItem` never stores a zero or negative
entry: it preserves positivity of all ledger values. -/
theorem xpEarned_roundtrip_and_positive :
    (∀ (s : RoutineSession) (itemId : String) (rewards : List (String × Nat))
        (now : Nat),
      itemId ∉ s.completedItems →
      ((s.xpEarned.map Prod.fst).Nodup) →
      ((rewards.map Prod.fst).Nodup) →
      (∀ p ∈ s.xpEarned, 0 < p.2) →
      ((s.completeItem itemId (some rewards) now).uncompleteItem itemId
          (some rewards)).xpEarned = s.xpEarned) ∧
    (∀ (s : RoutineSession) (itemId : String)
        (rewards : Option (List (String × Nat))),
      (∀ p ∈ s.xpEarned, 0 < p.2) →
      ∀ p ∈ (s.uncompleteItem itemId rewards).xpEarned, 0 < p.2) := by
  constructor
  · intro s itemId rewards now hmem hnd hrnd hpos
    have hmem2 : itemId ∈ (s.completeItem itemId (some rewards) now).completedItems := by
      rw [completeItem_completedItems _ now hmem]
      simp
    rw [uncompleteItem_xpEarned rewards hmem2,
      completeItem_xpEarned rewards now hmem]
    exact ledgerSub_ledgerAdd rewards s.xpEarned hnd hrnd hpos
  · intro s itemId rewards hpos
    unfold RoutineSession.uncompleteItem
    by_cases h : itemId ∈ s.completedItems
    · rw [if_pos h]
      cases rewards with
      | none => exact hpos
      | some rw2 => exact pos_ledgerSub rw2 s.xpEarned hpos
    · rw [if_neg h]
      exact hpos

/-- Closed witness for `xpEarned_roundtrip_and_positive` on a fresh
session. -/
theorem xpEarned_roundtrip_and_positive_witness :
    ((sampleFreshSession.completeItem "a" (some [("physical", 10)]) 1).uncompleteItem
        "a" (some [("physical", 10)])).xpEarned = sampleFreshSession.xpEarned :=
  xpEarned_roundtrip_and_positive.1 sampleFreshSession "a" [("physical", 10)] 1
    (by decide) (by decide) (by decide) (by decide)

/-- C3 counterexample: threshold predicates over the streak and over skill
levels are not monotone under the user operations of the system: a 5-day
streak predicate becomes false after a routine completion following a gap of
two or more days (the streak resets to 1), and a level-100 skill predicate
becomes false after the prestige reset (the level returns to 1). -/
theorem achievement_monotonicity_counterexample :
    streakCond 5 sampleStreakUser = true ∧
    streakCond 5 ((UserOp.completeRoutine 13).apply sampleStreakUser) = false ∧
    skillLevelCond 100 sampleMasterUser = true ∧
    skillLevelCond 100 ((UserOp.prestigeSkill "physical").apply sampleMasterUser)
      = false := by
  refine ⟨by decide, by decide, by decide, by decide⟩

/-- C3 (amended): threshold conditions over the lifetime counters
(routines completed, tasks completed, total XP earned) and over per-skill
prestige counts are monotone under every user operation and hence remain
true in every reachable state (streak-based and skill-level-based conditions
are exempt: the streak can reset and prestige resets the level); and
`checkAchievements` never reports the same achievement id as newly unlocked
in two different calls. -/
theorem monotone_conditions_and_one_shot_unlock :
    (∀ (ops : List UserOp) (u : User) (n : Nat),
      (routineCountCond n u = true → routineCountCond n (applyOps ops u) = true) ∧
      (taskCountCond n u = true → taskCountCond n (applyOps ops u) = true) ∧
      (xpCond n u = true → xpCond n (applyOps ops u) = true) ∧
      ((u.skills.map Prod.fst).Nodup → prestigeCond n u = true →
        prestigeCond n (applyOps ops u) = true)) ∧
    (∀ (catalog : List Achievement) (u1 : User) (t1 : Nat)
        (calls : List (User × Nat)) (u2 : User) (t2 : Nat) (id : String),
      (catalog.map Achievement.id).Nodup →
      id ∈ (AchievementManager.checkAchievements catalog u1 t1).2.2 →
      id ∉ (AchievementManager.checkAchievements
        (AchievementManager.runChecks
          (AchievementManager.checkAchievements catalog u1 t1).1 calls)
        u2 t2).2.2) := by
  constructor
  · intro ops u n
    have hm := applyOps_mono ops u
    refine ⟨?_, ?_, ?_, ?_⟩
    · intro h
      unfold routineCountCond at h ⊢
      exact decide_eq_true (Nat.le_trans (of_decide_eq_true h) hm.1)
    · intro h
      unfold taskCountCond at h ⊢
      exact decide_eq_true (Nat.le_trans (of_decide_eq_true h) hm.2.1)
    · intro h
      unfold xpCond at h ⊢
      exact decide_eq_true (Nat.le_trans (of_decide_eq_true h) hm.2.2.1)
    · intro hnd h
      unfold prestigeCond at h ⊢
      rcases List.any_eq_true.mp h with ⟨p, hp, hple⟩
      have hple2 : n ≤ p.2.prestige := of_decide_eq_true hple
      have hkey : entryGet u.skills p.1 = some p.2 := entryGet_of_mem_nodup hnd hp
      have h1 : prestigeAt u p.1 = p.2.prestige := by
        unfold prestigeAt
        rw [hkey]
        rfl
      have h2 := hm.2.2.2.1 p.1
      have hkmem : p.1 ∈ (applyOps ops u).skills.map Prod.fst := by
        rw [hm.2.2.2.2]
        exact List.mem_map.mpr ⟨p, hp, rfl⟩
      rcases entryGet_isSome_of_mem hkmem with ⟨v, hv⟩
      have h3 : prestigeAt (applyOps ops u) p.1 = v.prestige := by
        unfold prestigeAt
        rw [hv]
        rfl
      have hfin : n ≤ v.prestige := by omega
      exact List.any_eq_true.mpr ⟨(p.1, v), mem_of_entryGet hv, decide_eq_true hfin⟩
  · intro catalog u1 t1 calls u2 t2 id hnd hin
    have h1 := AchievementManager.check_newly_unlocked u1 t1 catalog hin
    have h2 := AchievementManager.runChecks_preserves_unlocked calls _ h1
    have hnd2 : ((AchievementManager.runChecks
        (AchievementManager.checkAchievements catalog u1 t1).1 calls).map
          Achievement.id).Nodup := by
      rw [AchievementManager.runChecks_ids, AchievementManager.check_ids]
      exact hnd
    exact AchievementManager.unlocked_not_newly u2 t2 _ hnd2 h2

/-- Closed witness for `monotone_conditions_and_one_shot_unlock`. -/
theorem monotone_conditions_and_one_shot_unlock_witness :
    taskCountCond 0 (applyOps [UserOp.completeTask 1] (User.init "Hunter" 0)) = true ∧
    "first-task" ∉ (AchievementManager.checkAchievements
      (AchievementManager.runChecks
        (AchievementManager.checkAchievements sampleCatalog sampleTaskUser 1).1 [])
      sampleTaskUser 2).2.2 :=
  ⟨(monotone_conditions_and_one_shot_unlock.1 [UserOp.completeTask 1]
      (User.init "Hunter" 0) 0).2.1 (by decide),
   monotone_conditions_and_one_shot_unlock.2 sampleCatalog sampleTaskUser 1 []
      sampleTaskUser 2 "first-task" (by decide) (by decide)⟩

/-- C10: completing an already-completed routine item through the manager
leaves the session unchanged (the session-level `completeItem` is a no-op,
and a fully completed session already carries the `completed` status), but
the user is charged again: the item rewards are awarded to the skills once
more, `totalXPEarned` grows by the same award, `totalTasksCompleted` is
incremented, and when the session is already fully complete,
`completeRoutine` runs again and increments `totalRoutinesCompleted`. -/
theorem recomplete_awards_again
    (routine : Routine) (session : RoutineSession) (user : User)
    (itemId : String) (item : RoutineItem) (now : Nat)
    (hitem : routine.getItem itemId = some item)
    (hmem : itemId ∈ session.completedItems)
    (hstatus : session.isComplete routine = true → session.status = .completed) :
    (RoutineManager.completeItem routine session user itemId now).1.isSome = true ∧
    (RoutineManager.completeItem routine session user itemId now).2.1 = session ∧
    (RoutineManager.completeItem routine session user itemId now).2.2.skills
      = (user.addRoutineRewards (item.skillRewards.getD []) now).1.skills ∧
    (RoutineManager.completeItem routine session user itemId now).2.2.stats.totalXPEarned
      = (user.addRoutineRewards (item.skillRewards.getD []) now).1.stats.totalXPEarned ∧
    user.stats.totalXPEarned
      ≤ (RoutineManager.completeItem routine session user itemId now).2.2.stats.totalXPEarned ∧
    (RoutineManager.completeItem routine session user itemId now).2.2.stats.totalTasksCompleted
      = user.stats.totalTasksCompleted + 1 ∧
    (session.isComplete routine = true →
      (RoutineManager.completeItem routine session user itemId now).2.2.stats.totalRoutinesCompleted
        = user.stats.totalRoutinesCompleted + 1) ∧
    (session.isComplete routine = false →
      (RoutineManager.completeItem routine session user itemId now).2.2.stats.totalRoutinesCompleted
        = user.stats.totalRoutinesCompleted) := by
  have hfr := addRoutineRewards_stats_frame user (item.skillRewards.getD []) now
  have hxp := (addRoutineRewards_mono (item.skillRewards.getD []) user now).2.2.1
  unfold RoutineManager.completeItem
  rw [hitem]
  dsimp only
  rw [completeItem_of_mem item.skillRewards now hmem]
  cases hb : session.isComplete routine with
  | true =>
    rw [if_pos rfl, complete_of_completed now (hstatus hb)]
    refine ⟨rfl, rfl, rfl, rfl, hxp, ?_, ?_, ?_⟩
    · show (user.addRoutineRewards (item.skillRewards.getD []) now).1.stats.totalTasksCompleted
          + 1 = user.stats.totalTasksCompleted + 1
      rw [hfr.2]
    · intro _
      show (user.addRoutineRewards (item.skillRewards.getD []) now).1.stats.totalRoutinesCompleted
          + 1 = user.stats.totalRoutinesCompleted + 1
      rw [hfr.1]
    · intro h
      exact absurd h (by simp)
  | false =>
    rw [if_neg (by simp)]
    refine ⟨rfl, rfl, rfl, rfl, hxp, ?_, ?_, ?_⟩
    · show (user.addRoutineRewards (item.skillRewards.getD []) now).1.stats.totalTasksCompleted
          + 1 = user.stats.totalTasksCompleted + 1
      rw [hfr.2]
    · intro h
      exact absurd h (by simp)
    · intro _
      show (user.addRoutineRewards (item.skillRewards.getD []) now).1.stats.totalRoutinesCompleted
          = user.stats.totalRoutinesCompleted
      exact hfr.1

/-- Closed witness for `recomplete_awards_again` on the sample routine with
its single item already completed. -/
theorem recomplete_awards_again_witness :
    (RoutineManager.completeItem sampleRoutine sampleCompletedSession
        (User.init "Hunter" 0) "a" 5).2.1 = sampleCompletedSession ∧
    (RoutineManager.completeItem sampleRoutine sampleCompletedSession
        (User.init "Hunter" 0) "a" 5).2.2.stats.totalTasksCompleted
      = (User.init "Hunter" 0).stats.totalTasksCompleted + 1 ∧
    (RoutineManager.completeItem sampleRoutine sampleCompletedSession
        (User.init "Hunter" 0) "a" 5).2.2.stats.totalRoutinesCompleted
      = (User.init "Hunter" 0).stats.totalRoutinesCompleted + 1 := by
  have h := recomplete_awards_again sampleRoutine sampleCompletedSession
    (User.init "Hunter" 0) "a" sampleItem 5 (by decide) (by decide)
    (fun _ => rfl)
  exact ⟨h.2.1, h.2.2.2.2.2.1, h.2.2.2.2.2.2.1 (by decide)⟩

end RoutineGamification
